import Mathlib

/-!
Verification development for the DocuFlow table-extraction core
(`src/docuflow/table_extraction/`): the Table/TableCell data model and its
derived views (`models/table.py`), the rule-based extractor
(`rule_based.py`), the model-driven extractor (`ai_driven.py`), and the
reconciliation service (`service.py`).

Modelling conventions:
* Python `str` is modelled as `List Char` (`Str`); `str.strip`, `str.lower`,
  `str.startswith`, `"x" in s`, and f-string concatenation are modelled
  directly on character lists.
* Python numbers (`int` and `float`) are modelled exactly as fractions of
  integers (`PyFloat`, an unnormalised numerator/denominator pair compared by
  cross-multiplication).  All numeric literals appearing in the source are
  exact decimals, and no comparison made by the code is close enough to an
  IEEE-754 rounding boundary for float rounding to change its outcome, so the
  exact-fraction semantics coincides with the Python semantics on the inputs
  considered here.
* Python exceptions are modelled with `Except PyErr`; a `try/except` block
  becomes a `match` on the `Except` value.  Functions that cannot raise are
  plain functions.
* The loosely typed `parsed_content` values (nested dicts/lists produced by
  the upstream parser) are modelled by the inductive type `PyVal`, with
  `dict.get`, truthiness, iteration, indexing and `len` given their Python
  semantics (raising `PyErr` values where Python raises).
* Python's stable `list.sort` is modelled by `List.insertionSort`, which is
  stable for the reflexive key orders used here and therefore extensionally
  equal to Timsort on those orders.
* The open `metadata` mappings on `Table` and `TableCell` are not modelled:
  no operation of the modelled modules ever reads them (they are only
  populated with provenance notes).
* `uuid4().hex[:8]` inside generated table ids is modelled by a fixed
  eight-character placeholder; no modelled operation inspects the id.
-/

/-- Python strings are modelled as lists of characters. -/
abbrev Str := List Char

/-- Whitespace characters recognised by Python's `str.strip()` (the ASCII
whitespace set, which covers every input in this development). -/
def isPySpace (c : Char) : Bool :=
  c = ' ' || c = '\t' || c = '\n' || c = '\r' || c = Char.ofNat 11 || c = Char.ofNat 12

/-- Model of Python `str.strip()`: drop leading and trailing whitespace. -/
def pyStrip (s : Str) : Str :=
  ((s.dropWhile isPySpace).reverse.dropWhile isPySpace).reverse

/-- Model of Python `str.lower()` (ASCII case folding; all inputs considered
here are ASCII). -/
def pyLower (s : Str) : Str :=
  s.map Char.toLower

/-- Exact model of a Python number (`int` or `float`): a fraction
`num / den` of integers, not necessarily in lowest terms.  Every value built
by the modelled code has a positive denominator.  Comparisons are by
cross-multiplication, so they are representation-independent. -/
structure PyFloat where
  num : Int
  den : Int
deriving Repr, DecidableEq

/-- Embed an integer as a `PyFloat`. -/
def PyFloat.ofInt (n : Int) : PyFloat := ⟨n, 1⟩

/-- Addition of exact fractions. -/
def PyFloat.add (a b : PyFloat) : PyFloat :=
  ⟨a.num * b.den + b.num * a.den, a.den * b.den⟩

/-- Subtraction of exact fractions. -/
def PyFloat.sub (a b : PyFloat) : PyFloat :=
  ⟨a.num * b.den - b.num * a.den, a.den * b.den⟩

/-- Multiplication of exact fractions. -/
def PyFloat.mul (a b : PyFloat) : PyFloat :=
  ⟨a.num * b.num, a.den * b.den⟩

/-- True division of exact fractions, with the sign moved into the
numerator.  Callers model Python's `ZeroDivisionError` before dividing. -/
def PyFloat.div (a b : PyFloat) : PyFloat :=
  if b.num < 0 then ⟨-(a.num * b.den), a.den * (-b.num)⟩
  else ⟨a.num * b.den, a.den * b.num⟩

/-- Test for the exact value zero (`num = 0`). -/
def PyFloat.isZero (a : PyFloat) : Bool := a.num = 0

/-- Comparison `a ≤ b` by cross-multiplication (denominators positive). -/
def PyFloat.leB (a b : PyFloat) : Bool := a.num * b.den ≤ b.num * a.den

/-- Comparison `a < b` by cross-multiplication (denominators positive). -/
def PyFloat.ltB (a b : PyFloat) : Bool := a.num * b.den < b.num * a.den

/-- Value equality `a == b` by cross-multiplication. -/
def PyFloat.eqB (a b : PyFloat) : Bool := a.num * b.den = b.num * a.den

/-- Absolute value. -/
def PyFloat.absF (a : PyFloat) : PyFloat := ⟨a.num.natAbs, a.den⟩

/-- Sum of a list of fractions, as Python's `sum` over numbers. -/
def PyFloat.sumF (l : List PyFloat) : PyFloat :=
  l.foldl PyFloat.add (PyFloat.ofInt 0)

/-- Model of Python `int(x)` on a number: truncation toward zero. -/
def PyFloat.truncF (a : PyFloat) : Int := a.num.tdiv a.den

/-- The Python exceptions that the modelled code can raise or catch. -/
inductive PyErr where
  | attributeError
  | typeError
  | indexError
  | zeroDivisionError
  | valueError
  | validationError
deriving Repr, DecidableEq

/-- Model of the dynamically typed Python values that make up
`parsed_content` (the upstream parser output): `None`, booleans, numbers,
strings, lists and string-keyed dicts. -/
inductive PyVal where
  | none
  | bool (b : Bool)
  | int (n : Int)
  | float (f : PyFloat)
  | str (s : Str)
  | list (xs : List PyVal)
  | dict (kvs : List (Str × PyVal))
deriving Repr

/-- Numeric view of a `PyVal` (Python treats `bool` as a number). -/
def PyVal.asFloat? : PyVal → Option PyFloat
  | .bool b => some (PyFloat.ofInt (if b then 1 else 0))
  | .int n => some (PyFloat.ofInt n)
  | .float f => some f
  | _ => Option.none

mutual

/-- Model of Python `==` on `PyVal`s: numeric values compare by value
(across `bool`/`int`/`float`), strings and lists structurally.  Dicts are
compared pairwise in order (Python compares them order-insensitively, but no
modelled code path compares dicts). -/
def pyEq (a b : PyVal) : Bool :=
  match a.asFloat?, b.asFloat? with
  | some x, some y => PyFloat.eqB x y
  | _, _ =>
    match a, b with
    | .none, .none => true
    | .str s, .str t => s = t
    | .list xs, .list ys => pyEqList xs ys
    | .dict xs, .dict ys => pyEqDict xs ys
    | _, _ => false

/-- Elementwise `==` on lists of `PyVal`s. -/
def pyEqList : List PyVal → List PyVal → Bool
  | [], [] => true
  | x :: xs, y :: ys => pyEq x y && pyEqList xs ys
  | _, _ => false

/-- Pairwise `==` on dict entry lists. -/
def pyEqDict : List (Str × PyVal) → List (Str × PyVal) → Bool
  | [], [] => true
  | (k, v) :: xs, (l, w) :: ys => k = l && pyEq v w && pyEqDict xs ys
  | _, _ => false

end

instance : BEq PyVal := ⟨pyEq⟩

/-- Model of Python truthiness for the values used by the code. -/
def PyVal.truthy : PyVal → Bool
  | .none => false
  | .bool b => b
  | .int n => n ≠ 0
  | .float f => !f.isZero
  | .str s => s ≠ []
  | .list xs => !xs.isEmpty
  | .dict kvs => !kvs.isEmpty

/-- Model of Python `d.get(key, default)`: a dict returns the value of the
first matching key or the default; any other receiver raises
`AttributeError` (it has no `get` method). -/
def pyGetD (v : PyVal) (k : Str) (d : PyVal) : Except PyErr PyVal :=
  match v with
  | .dict kvs =>
    match kvs.find? (fun kv => kv.1 = k) with
    | some kv => .ok kv.2
    | Option.none => .ok d
  | _ => .error .attributeError

/-- Model of Python iteration `for x in v`: lists yield their elements,
strings their characters (as one-character strings), dicts their keys;
anything else raises `TypeError`. -/
def pyIter : PyVal → Except PyErr (List PyVal)
  | .list xs => .ok xs
  | .str s => .ok (s.map (fun c => .str [c]))
  | .dict kvs => .ok (kvs.map (fun kv => .str kv.1))
  | _ => .error .typeError

/-- A `PyVal` viewed as a string; non-strings raise `AttributeError` (the
model's stand-in for calling a `str` method on a non-string). -/
def pyAsStrE : PyVal → Except PyErr Str
  | .str s => .ok s
  | _ => .error .attributeError

/-- Model of Python `len(v)` for strings, lists and dicts. -/
def pyLen : PyVal → Except PyErr Int
  | .str s => .ok s.length
  | .list xs => .ok xs.length
  | .dict kvs => .ok kvs.length
  | _ => .error .typeError

/-- A `PyVal` viewed as a number; non-numbers raise `TypeError` (the model's
stand-in for using a non-number in arithmetic or an order comparison). -/
def pyToFloatE (v : PyVal) : Except PyErr PyFloat :=
  match v.asFloat? with
  | some f => .ok f
  | Option.none => .error .typeError

/-- Model of Python list subscription `l[i]` on a typed list: indices in
`[0, len)` read directly, indices in `[-len, 0)` wrap, anything else raises
`IndexError`. -/
def pyIdx (l : List α) (i : Int) : Except PyErr α :=
  if h : 0 ≤ i ∧ i.toNat < l.length then .ok (l.get ⟨i.toNat, h.2⟩)
  else if h' : i < 0 ∧ (i + l.length).toNat < l.length ∧ 0 ≤ i + l.length then
    .ok (l.get ⟨(i + l.length).toNat, h'.2.1⟩)
  else .error .indexError

/-- Model of Python list item assignment `l[i] = a` (same index semantics as
`pyIdx`). -/
def pySetE (l : List α) (i : Int) (a : α) : Except PyErr (List α) :=
  if 0 ≤ i ∧ i.toNat < l.length then .ok (l.set i.toNat a)
  else if i < 0 ∧ (i + l.length).toNat < l.length ∧ 0 ≤ i + l.length then
    .ok (l.set (i + l.length).toNat a)
  else .error .indexError

/-- Model of Python list subscription on an untyped `PyVal` (lists and
strings are subscriptable; anything else raises `TypeError`). -/
def pyIndexV (v : PyVal) (i : Int) : Except PyErr PyVal :=
  match v with
  | .list xs => pyIdx xs i
  | .str s => (pyIdx s i).map (fun c => .str [c])
  | _ => .error .typeError

/-- Model of Python `range(a, b)` over integers. -/
def pyRange (a b : Int) : List Int :=
  (List.range (b - a).toNat).map (fun i : Nat => a + (i : Int))

/-- Map with error propagation (Python's left-to-right evaluation of a loop
or comprehension whose body may raise). -/
def mapE (f : α → Except PyErr β) : List α → Except PyErr (List β)
  | [] => .ok []
  | a :: as =>
    match f a with
    | .error e => .error e
    | .ok b =>
      match mapE f as with
      | .error e => .error e
      | .ok bs => .ok (b :: bs)

/-- Model of Python's `set(...)` collapsed to a list of first occurrences
(membership uses Python `==` via `BEq PyVal`); only the cardinality and
membership of these sets are ever consumed. -/
def pySetOf (l : List PyVal) : List PyVal := l.eraseDups

/-! Data model (`table_extraction/models/table.py`). -/

/-- The `TableDetectionMethod` enum.  Its three members are
`DOCLING_DRIVEN`, `RULE_BASED` and `HYBRID`; there is no `AI_DRIVEN`
member (which matters for `ai_driven.py` line 172). -/
inductive TableDetectionMethod where
  | docling_driven
  | rule_based
  | hybrid
deriving Repr, DecidableEq

/-- The `TableCell` model: one logical grid cell.  Field order matches the
source; the open `metadata` mapping is omitted (never read). -/
structure TableCell where
  text : Str
  row : Int
  col : Int
  rowspan : Int
  colspan : Int
  is_header : Bool
  confidence : PyFloat
deriving Repr, DecidableEq

/-- The `Table` model: one detected table instance.  Field order matches the
source; the open `metadata` mapping is omitted (never read). -/
structure Table where
  id : Str
  document_id : Str
  page_number : Int
  cells : List TableCell
  num_rows : Int
  num_cols : Int
  caption : Option Str
  detection_method : TableDetectionMethod
  confidence_score : PyFloat
  bbox : Option (List PyFloat)
deriving Repr, DecidableEq

/-- One step of `Table.to_dict_format`'s fill loop:
`grid[cell.row][cell.col] = cell.text` reads the row (Python index
semantics, possibly raising `IndexError`), updates it, and stores it back. -/
def fillGrid : List (List Str) → List TableCell → Except PyErr (List (List Str))
  | g, [] => .ok g
  | g, c :: cs =>
    match pyIdx g c.row with
    | .error e => .error e
    | .ok row =>
      match pySetE row c.col c.text with
      | .error e => .error e
      | .ok row' =>
        match pySetE g c.row row' with
        | .error e => .error e
        | .ok g' => fillGrid g' cs

/-- Model of `Table.to_dict_format`: an empty `num_rows × num_cols` grid of
empty strings, filled cell by cell. -/
def toDictFormat (t : Table) : Except PyErr (List (List Str)) :=
  fillGrid (List.replicate t.num_rows.toNat (List.replicate t.num_cols.toNat [])) t.cells

/-- The header row used by `Table.to_markdown`: the `row` of the first cell
(in `cells` order) flagged `is_header`, defaulting to `0`. -/
def headerRowOf (t : Table) : Int :=
  ((t.cells.find? (fun c => c.is_header)).map (fun c => c.row)).getD 0

/-- One markdown table line: `"| " + " | ".join(row) + " |"`. -/
def mkRowLine (row : List Str) : Str :=
  "| ".toList ++ List.intercalate (" | ".toList) row ++ " |".toList

/-- One markdown separator line: `"|" + "|".join("---" for _ in row) + "|"`. -/
def mkSepLine (row : List Str) : Str :=
  "|".toList ++ List.intercalate ("|".toList) (row.map (fun _ => "---".toList)) ++ "|".toList

/-- The caption block of `Table.to_markdown`: a single `"**{caption}**\n"`
entry when the caption is truthy (present and non-empty). -/
def captionLines (t : Table) : List Str :=
  match t.caption with
  | some c => if c.isEmpty then [] else [("**".toList ++ c ++ "**".toList) ++ ['\n']]
  | Option.none => []

/-- The row loop of `Table.to_markdown` (`for i, row in enumerate(grid)`),
carrying the running index: each grid row becomes a pipe line, and the
separator line is appended right after the line whose index equals the
header row. -/
def mdRowLinesFrom (i headerRow : Int) : List (List Str) → List Str
  | [] => []
  | row :: rest =>
    (mkRowLine row :: (if i = headerRow then [mkSepLine row] else [])) ++
      mdRowLinesFrom (i + 1) headerRow rest

/-- The row lines of `Table.to_markdown`: the row loop started at index 0. -/
def mdRowLines (grid : List (List Str)) (headerRow : Int) : List Str :=
  mdRowLinesFrom 0 headerRow grid

/-- Model of `Table.to_markdown`: empty string for a cell-less table,
otherwise the caption block and the row lines joined with newlines. -/
def toMarkdown (t : Table) : Except PyErr Str :=
  if t.cells.isEmpty then .ok []
  else
    match toDictFormat t with
    | .error e => .error e
    | .ok grid => .ok (List.intercalate ['\n'] (captionLines t ++ mdRowLines grid (headerRowOf t)))

/-! Reconciliation service (`table_extraction/service.py`).  A registered
extractor is abstracted by the outcome of its `extract_tables` call on the
document under consideration together with its `validate_table` behaviour. -/

/-- Observable behaviour of one registered extractor on the call being
analysed: the outcome of `extract_tables` and the `validate_table`
function. -/
structure ExtractorBehavior where
  extractResult : Except PyErr (List Table)
  validateResult : Table → Except PyErr Bool

/-- The service's `_extractors` dict: at most one registered extractor per
`TableDetectionMethod` tag. -/
structure ServiceState where
  docling : Option ExtractorBehavior
  ruleBased : Option ExtractorBehavior
  hybrid : Option ExtractorBehavior

/-- Dict lookup `self._extractors[method]` combined with the membership
test (`none` when the tag is unregistered). -/
def ServiceState.lookup (s : ServiceState) : TableDetectionMethod → Option ExtractorBehavior
  | .docling_driven => s.docling
  | .rule_based => s.ruleBased
  | .hybrid => s.hybrid

/-- Test for `not self._extractors`: no extractor registered at all. -/
def ServiceState.isEmptySvc (s : ServiceState) : Bool :=
  s.docling.isNone && s.ruleBased.isNone && s.hybrid.isNone

/-- Model of `TableExtractionService._validate_tables`: keep the tables the
extractor validates; a validation exception only drops that table. -/
def validateTablesF (ts : List Table) (ex : ExtractorBehavior) : List Table :=
  ts.filter (fun t =>
    match ex.validateResult t with
    | .ok b => b
    | .error _ => false)

/-- Truthiness of an optional bbox (`if table.bbox:`): present and
non-empty. -/
def bboxTruthy : Option (List PyFloat) → Bool
  | some (_ :: _) => true
  | _ => false

/-- Model of `TableExtractionService._bbox_to_key`: the string
`f"{int(b[0])},{int(b[1])},{int(b[2])},{int(b[3])}"`, represented by the
quadruple of truncated integers (the string form is injective in them). -/
def bboxToKey (b : List PyFloat) : Except PyErr (Int × Int × Int × Int) :=
  match pyIdx b 0 with
  | .error e => .error e
  | .ok x1 =>
    match pyIdx b 1 with
    | .error e => .error e
    | .ok y1 =>
      match pyIdx b 2 with
      | .error e => .error e
      | .ok x2 =>
        match pyIdx b 3 with
        | .error e => .error e
        | .ok y2 => .ok (x1.truncF, y1.truncF, x2.truncF, y2.truncF)

/-- The axis-aligned rectangle-overlap test of
`TableExtractionService._has_overlap`, with Python's left-to-right
short-circuit evaluation:
`t[0] < e[2] and t[2] > e[0] and t[1] < e[3] and t[3] > e[1]`. -/
def overlapPair (tb eb : List PyFloat) : Except PyErr Bool :=
  match pyIdx tb 0, pyIdx eb 2 with
  | .error e, _ => .error e
  | _, .error e => .error e
  | .ok t0, .ok e2 =>
    if PyFloat.ltB t0 e2 then
      match pyIdx tb 2, pyIdx eb 0 with
      | .error e, _ => .error e
      | _, .error e => .error e
      | .ok t2, .ok e0 =>
        if PyFloat.ltB e0 t2 then
          match pyIdx tb 1, pyIdx eb 3 with
          | .error e, _ => .error e
          | _, .error e => .error e
          | .ok t1, .ok e3 =>
            if PyFloat.ltB t1 e3 then
              match pyIdx tb 3, pyIdx eb 1 with
              | .error e, _ => .error e
              | _, .error e => .error e
              | .ok t3, .ok e1 => .ok (PyFloat.ltB e1 t3)
            else .ok false
        else .ok false
    else .ok false

/-- The loop of `_has_overlap` over the already-kept tables (kept tables
without a truthy bbox are skipped). -/
def hasOverlapLoop (tb : List PyFloat) : List Table → Except PyErr Bool
  | [] => .ok false
  | e :: rest =>
    match e.bbox with
    | some (y :: ys) =>
      match overlapPair tb (y :: ys) with
      | .error err => .error err
      | .ok true => .ok true
      | .ok false => hasOverlapLoop tb rest
    | _ => hasOverlapLoop tb rest

/-- Model of `TableExtractionService._has_overlap`. -/
def hasOverlap (t : Table) (existing : List Table) : Except PyErr Bool :=
  match t.bbox with
  | some (x :: xs) => hasOverlapLoop (x :: xs) existing
  | _ => .ok false

/-- Step 1 of `_merge_table_results`: accept every model-driven table with
`confidence_score >= 0.8`, marking the bbox key of each accepted table that
has a truthy bbox as used. -/
def mergeStep1 (merged : List Table) (used : List (Int × Int × Int × Int)) :
    List Table → Except PyErr (List Table × List (Int × Int × Int × Int))
  | [] => .ok (merged, used)
  | t :: rest =>
    if PyFloat.leB ⟨8, 10⟩ t.confidence_score then
      match t.bbox with
      | some (x :: xs) =>
        match bboxToKey (x :: xs) with
        | .error e => .error e
        | .ok k => mergeStep1 (merged ++ [t]) (used ++ [k]) rest
      | _ => mergeStep1 (merged ++ [t]) used rest
    else mergeStep1 merged used rest

/-- Step 3 of `_merge_table_results`: walk the confidence-sorted pool,
always keeping candidates without a truthy bbox, and keeping a candidate
with one only if its key is unused and it overlaps no already-kept table. -/
def mergeWalk (merged : List Table) (used : List (Int × Int × Int × Int)) :
    List Table → Except PyErr (List Table)
  | [] => .ok merged
  | t :: rest =>
    match t.bbox with
    | some (x :: xs) =>
      match bboxToKey (x :: xs) with
      | .error e => .error e
      | .ok k =>
        if used.contains k then mergeWalk merged used rest
        else
          match hasOverlap t merged with
          | .error e => .error e
          | .ok true => mergeWalk merged used rest
          | .ok false => mergeWalk (merged ++ [t]) (used ++ [k]) rest
    | _ => mergeWalk (merged ++ [t]) used rest

/-- The confidence-descending order used by
`all_remaining.sort(key=lambda t: t.confidence_score, reverse=True)`
(stable for ties, like Python's sort). -/
def confDescOrder (a b : Table) : Prop :=
  PyFloat.leB b.confidence_score a.confidence_score = true

instance : DecidableRel confDescOrder := fun a b => by
  unfold confDescOrder
  infer_instance

/-- The main path of `_merge_table_results` (both argument lists
non-empty): step 1, then the sorted residual pool walked by step 3. -/
def mergeMain (dts rts : List Table) : Except PyErr (List Table) :=
  match mergeStep1 [] [] dts with
  | .error e => .error e
  | .ok (merged, used) =>
    let remaining := dts.filter (fun t => PyFloat.ltB t.confidence_score ⟨8, 10⟩)
    mergeWalk merged used (List.insertionSort confDescOrder (remaining ++ rts))

/-- Model of `TableExtractionService._merge_table_results`, including its
early returns when either input list is empty. -/
def mergeTableResults (dts rts : List Table) : Except PyErr (List Table) :=
  if rts.isEmpty then .ok dts
  else if dts.isEmpty then .ok rts
  else mergeMain dts rts

/-- One isolated extractor run on the default path of
`TableExtractionService.extract_tables`: an exception from the extractor is
logged and treated as zero tables; otherwise its output is validated. -/
def runExtractorIsolated (ex : ExtractorBehavior) : List Table :=
  match ex.extractResult with
  | .error _ => []
  | .ok ts => validateTablesF ts ex

/-- The default (no usable preferred method) path of
`TableExtractionService.extract_tables`: model-driven first (isolated),
rule-based only if that produced nothing (isolated), then merge, degrading
to concatenation if the merge itself fails. -/
def serviceDefaultPath (svc : ServiceState) : List Table :=
  let doclingTables :=
    match svc.docling with
    | some ex => runExtractorIsolated ex
    | Option.none => []
  let ruleTables :=
    if doclingTables.isEmpty then
      match svc.ruleBased with
      | some ex => runExtractorIsolated ex
      | Option.none => []
    else []
  match mergeTableResults doclingTables ruleTables with
  | .ok ts => ts
  | .error _ => doclingTables ++ ruleTables

/-- Model of `TableExtractionService.extract_tables`: raise `ValueError`
when no extractor is registered; when a registered preferred method is
given, run it without isolation (its exception propagates); otherwise take
the default path, which never raises. -/
def serviceExtractTables (svc : ServiceState) (preferred : Option TableDetectionMethod) :
    Except PyErr (List Table) :=
  if svc.isEmptySvc then .error .valueError
  else
    match preferred with
    | some m =>
      match svc.lookup m with
      | some ex =>
        match ex.extractResult with
        | .error e => .error e
        | .ok ts => .ok (validateTablesF ts ex)
      | Option.none => .ok (serviceDefaultPath svc)
    | Option.none => .ok (serviceDefaultPath svc)

/-- Modelled from the spec (section 4.4, merge algorithm, step 1): the used
keys of the unconditionally accepted tables, in order. -/
def specUsedKeys : List Table → Except PyErr (List (Int × Int × Int × Int))
  | [] => .ok []
  | t :: rest =>
    match t.bbox with
    | some (x :: xs) =>
      match bboxToKey (x :: xs) with
      | .error e => .error e
      | .ok k =>
        match specUsedKeys rest with
        | .error e => .error e
        | .ok ks => .ok (k :: ks)
    | _ => specUsedKeys rest

/-- Modelled from the spec (section 4.4, merge algorithm, step 3): walk the
sorted pool, keep a candidate without a bbox always, keep one with a bbox
only when its rounded key is unused and it rectangle-overlaps no
already-kept table, marking kept keys used. -/
def specWalk (kept : List Table) (used : List (Int × Int × Int × Int)) :
    List Table → Except PyErr (List Table)
  | [] => .ok kept
  | t :: rest =>
    match t.bbox with
    | some (x :: xs) =>
      match bboxToKey (x :: xs) with
      | .error e => .error e
      | .ok k =>
        if used.contains k then specWalk kept used rest
        else
          match hasOverlap t kept with
          | .error e => .error e
          | .ok true => specWalk kept used rest
          | .ok false => specWalk (kept ++ [t]) (used ++ [k]) rest
    | _ => specWalk (kept ++ [t]) used rest

/-- Modelled from the spec (section 4.4): the merge algorithm as specified,
applied unconditionally (no special case for an empty input list): accept
all model-driven tables with confidence at least 0.8 and mark their keys,
then walk the remaining pool in stable confidence-descending order, and
list the accepted tables first followed by the surviving candidates. -/
def mergeSpecAlgorithm (dts rts : List Table) : Except PyErr (List Table) :=
  let accepted := dts.filter (fun t => PyFloat.leB ⟨8, 10⟩ t.confidence_score)
  match specUsedKeys accepted with
  | .error e => .error e
  | .ok used =>
    let pool := dts.filter (fun t => PyFloat.ltB t.confidence_score ⟨8, 10⟩) ++ rts
    specWalk accepted used (List.insertionSort confDescOrder pool)

/-! Rule-based extractor (`table_extraction/rule_based.py`). -/

/-- The normalised text-block dict built by
`RuleBasedTableExtractor._get_text_blocks`: keys `text`, `bbox`, `font`,
`font_size` (all raw `PyVal`s from the element). -/
structure TextBlock where
  text : PyVal
  bbox : PyVal
  font : PyVal
  font_size : PyVal
deriving Repr

/-- The body of one iteration of the `_get_text_blocks` filtering loop on
one element: `none` when the element is skipped (not of type `"text"`, or
caption-like: stripped lowercased text starting with `"table "` and
containing `":"`), `some` block info when it is kept, an error when the
iteration raises. -/
def ruleTextBlockOfElement (e : PyVal) : Except PyErr (Option TextBlock) :=
  match pyGetD e "type".toList .none with
  | .error err => .error err
  | .ok tv =>
    if pyEq tv (.str "text".toList) then
      match pyGetD e "text".toList (.str []) with
      | .error err => .error err
      | .ok traw =>
        match pyAsStrE traw with
        | .error err => .error err
        | .ok s =>
          let low := pyLower (pyStrip s)
          if "table ".toList.isPrefixOf low && low.contains ':' then
            .ok Option.none
          else
            match pyGetD e "bbox".toList (.list [.int 0, .int 0, .int 0, .int 0]) with
            | .error err => .error err
            | .ok bb =>
              match pyGetD e "font".toList .none with
              | .error err => .error err
              | .ok f =>
                match pyGetD e "font_size".toList .none with
                | .error err => .error err
                | .ok fs => .ok (some ⟨traw, bb, f, fs⟩)
    else .ok Option.none

/-- The filtering loop of `_get_text_blocks`: keep elements of type
`"text"` unless their stripped, lowercased text starts with `"table "` and
contains `":"` (caption-like). -/
def ruleTextBlocksLoop : List PyVal → Except PyErr (List TextBlock)
  | [] => .ok []
  | e :: rest =>
    match ruleTextBlockOfElement e with
    | .error err => .error err
    | .ok Option.none => ruleTextBlocksLoop rest
    | .ok (some b) =>
      match ruleTextBlocksLoop rest with
      | .error err => .error err
      | .ok bs => .ok (b :: bs)

/-- The unsorted text blocks of `_get_text_blocks` (before the final
`(top, left)` sort). -/
def ruleRawTextBlocks (layout : PyVal) : Except PyErr (List TextBlock) :=
  match pyGetD layout "elements".toList (.list []) with
  | .error e => .error e
  | .ok ev =>
    match pyIter ev with
    | .error e => .error e
    | .ok es => ruleTextBlocksLoop es

/-- The sort key `(x["bbox"][1], x["bbox"][0])` of `_get_text_blocks`,
evaluated up front as Python's decorate-sort does. -/
def blockYX (b : TextBlock) : Except PyErr (PyFloat × PyFloat) :=
  match pyIndexV b.bbox 1 with
  | .error e => .error e
  | .ok v1 =>
    match pyToFloatE v1 with
    | .error e => .error e
    | .ok f1 =>
      match pyIndexV b.bbox 0 with
      | .error e => .error e
      | .ok v0 =>
        match pyToFloatE v0 with
        | .error e => .error e
        | .ok f0 => .ok (f1, f0)

/-- Lexicographic order on the `(top, left)` sort keys. -/
def yxOrder (a b : (PyFloat × PyFloat) × TextBlock) : Prop :=
  (PyFloat.ltB a.1.1 b.1.1 || (PyFloat.eqB a.1.1 b.1.1 && PyFloat.leB a.1.2 b.1.2)) = true

instance : DecidableRel yxOrder := fun a b => by
  unfold yxOrder
  infer_instance

/-- Model of `RuleBasedTableExtractor._get_text_blocks`: filter, then
stable-sort by `(top, left)`. -/
def getTextBlocks (layout : PyVal) : Except PyErr (List TextBlock) :=
  match ruleRawTextBlocks layout with
  | .error e => .error e
  | .ok bs =>
    match mapE (fun b => (blockYX b).map (fun k => (k, b))) bs with
    | .error e => .error e
    | .ok keyed => .ok ((List.insertionSort yxOrder keyed).map (fun p => p.2))

/-- The `top` coordinate `b["bbox"][1]` of a block, as a number. -/
def blockY (b : TextBlock) : Except PyErr PyFloat :=
  match pyIndexV b.bbox 1 with
  | .error e => .error e
  | .ok v => pyToFloatE v

/-- Ascending order on the `top` sort key. -/
def yOrder (a b : PyFloat × TextBlock) : Prop := PyFloat.leB a.1 b.1 = true

instance : DecidableRel yOrder := fun a b => by
  unfold yOrder
  infer_instance

/-- The row-building loop of `_group_blocks_into_rows`: a block joins the
current row iff its `top` is within the tolerance of `current_y`, and
`current_y` is only ever (re)set to the `top` of a block that opens a new
row — never to that of a block merged into the current row. -/
def groupLoop (tol anchorY : PyFloat) (cur : List (PyFloat × β))
    (acc : List (List (PyFloat × β))) : List (PyFloat × β) → List (List (PyFloat × β))
  | [] => acc ++ [cur]
  | b :: bs =>
    if PyFloat.leB (PyFloat.absF (PyFloat.sub b.1 anchorY)) tol then
      groupLoop tol anchorY (cur ++ [b]) acc bs
    else groupLoop tol b.1 [b] (acc ++ [cur]) bs

/-- Model of `RuleBasedTableExtractor._group_blocks_into_rows` with its
default 5.0-unit tolerance: stable-sort by `top`, then run the
row-building loop anchored at the first block. -/
def groupBlocksIntoRows (blocks : List TextBlock) : Except PyErr (List (List TextBlock)) :=
  if blocks.isEmpty then .ok []
  else
    match mapE (fun b => (blockY b).map (fun y => (y, b))) blocks with
    | .error e => .error e
    | .ok keyed =>
      match List.insertionSort yOrder keyed with
      | [] => .ok []
      | s0 :: rest =>
        .ok ((groupLoop ⟨5, 1⟩ s0.1 [s0] [] rest).map (fun r => r.map (fun p => p.2)))

/-- The consecutive horizontal gaps `row[i+1]["bbox"][0] - row[i]["bbox"][2]`
of `_is_potential_table_row`. -/
def spacesOf : List TextBlock → Except PyErr (List PyFloat)
  | [] => .ok []
  | [_] => .ok []
  | a :: b :: rest =>
    match pyIndexV b.bbox 0 with
    | .error e => .error e
    | .ok v1 =>
      match pyToFloatE v1 with
      | .error e => .error e
      | .ok x1 =>
        match pyIndexV a.bbox 2 with
        | .error e => .error e
        | .ok v2 =>
          match pyToFloatE v2 with
          | .error e => .error e
          | .ok x2 =>
            match spacesOf (b :: rest) with
            | .error e => .error e
            | .ok s => .ok (PyFloat.sub x1 x2 :: s)

/-- Model of `RuleBasedTableExtractor._is_potential_table_row` with its
default parameters (`min_cells=2`, `max_variance=0.2`).  Note the division
`variance / avg_space`: when the gaps average to exactly zero this raises
`ZeroDivisionError`, and no caller catches it. -/
def isPotentialTableRow (row : List TextBlock) : Except PyErr Bool :=
  if row.length < 2 then .ok false
  else
    match spacesOf row with
    | .error e => .error e
    | .ok spaces =>
      if spaces.isEmpty then .ok false
      else
        let avg := PyFloat.div (PyFloat.sumF spaces) (PyFloat.ofInt spaces.length)
        let variance := PyFloat.div
          (PyFloat.sumF (spaces.map (fun s => PyFloat.mul (PyFloat.sub s avg) (PyFloat.sub s avg))))
          (PyFloat.ofInt spaces.length)
        if avg.isZero then .error .zeroDivisionError
        else if PyFloat.ltB ⟨2, 10⟩ (PyFloat.div variance avg) then .ok false
        else
          let fonts := pySetOf (row.map (fun b => b.font))
          let sizes := pySetOf (row.map (fun b => b.font_size))
          .ok (decide (fonts.length ≤ 2) && decide (sizes.length ≤ 2))

/-- The region dict built by `_create_region_from_rows`
(`{"type": "table", "bbox": [...], "rows": ..., "confidence": ...}`). -/
structure RuleRegion where
  bbox : List PyFloat
  rows : List (List TextBlock)
  confidence : PyFloat
deriving Repr

/-- All `bbox[i]` coordinates of the blocks of a row group, row-major, as
numbers. -/
def collectCoord (i : Int) (rows : List (List TextBlock)) : Except PyErr (List PyFloat) :=
  mapE (fun b =>
    match pyIndexV b.bbox i with
    | .error e => .error e
    | .ok v => pyToFloatE v) rows.flatten

/-- Python `min` over a list of numbers (first minimum; `ValueError` when
empty). -/
def minF : List PyFloat → Except PyErr PyFloat
  | [] => .error .valueError
  | x :: xs => .ok (xs.foldl (fun m a => if PyFloat.ltB a m then a else m) x)

/-- Python `max` over a list of numbers (first maximum; `ValueError` when
empty). -/
def maxF : List PyFloat → Except PyErr PyFloat
  | [] => .error .valueError
  | x :: xs => .ok (xs.foldl (fun m a => if PyFloat.ltB m a then a else m) x)

/-- Model of `_calculate_structure_confidence` (pure: its divisions are
guarded). -/
def calcStructureConfidence (rows : List (List TextBlock)) : PyFloat :=
  if rows.isEmpty then ⟨0, 1⟩
  else
    let lens := rows.map (fun r => PyFloat.ofInt r.length)
    let avg := PyFloat.div (PyFloat.sumF lens) (PyFloat.ofInt lens.length)
    if PyFloat.ltB avg ⟨2, 1⟩ then ⟨0, 1⟩
    else
      let variance := PyFloat.div
        (PyFloat.sumF (lens.map (fun l => PyFloat.mul (PyFloat.sub l avg) (PyFloat.sub l avg))))
        (PyFloat.ofInt lens.length)
      let v := PyFloat.sub ⟨1, 1⟩ (PyFloat.div variance avg)
      if PyFloat.ltB ⟨0, 1⟩ v then v else ⟨0, 1⟩

/-- Model of `_calculate_alignment_confidence`. -/
def calcAlignmentConfidence (rows : List (List TextBlock)) : Except PyErr PyFloat :=
  if rows.isEmpty then .ok ⟨0, 1⟩
  else
    match mapE (fun row => mapE (fun b =>
        match pyIndexV b.bbox 0 with
        | .error e => .error e
        | .ok v => pyToFloatE v) row) rows with
    | .error e => .error e
    | .ok colPos =>
      match colPos with
      | [] => .ok ⟨0, 1⟩
      | ref :: restPos =>
        match mapE (fun pos =>
          if pos.length ≠ ref.length then .ok (⟨0, 1⟩ : PyFloat)
          else
            let diffs := (pos.zip ref).map (fun p => PyFloat.absF (PyFloat.sub p.1 p.2))
            if diffs.isEmpty then .error .zeroDivisionError
            else
              let avgDiff := PyFloat.div (PyFloat.sumF diffs) (PyFloat.ofInt diffs.length)
              let v := PyFloat.sub ⟨1, 1⟩ (PyFloat.div avgDiff ⟨50, 1⟩)
              .ok (if PyFloat.ltB ⟨0, 1⟩ v then v else ⟨0, 1⟩)) restPos with
        | .error e => .error e
        | .ok scores =>
          .ok (if scores.isEmpty then ⟨0, 1⟩
               else PyFloat.div (PyFloat.sumF scores) (PyFloat.ofInt scores.length))

/-- Model of `_calculate_format_confidence` (pure). -/
def calcFormatConfidence (rows : List (List TextBlock)) : PyFloat :=
  match rows with
  | [] => ⟨0, 1⟩
  | hdr :: body =>
    let headerFonts := pySetOf (hdr.map (fun b => b.font))
    let headerSizes := pySetOf (hdr.map (fun b => b.font_size))
    let bodyFonts := pySetOf (body.flatten.map (fun b => b.font))
    let bodySizes := pySetOf (body.flatten.map (fun b => b.font_size))
    let fontDiff := !(headerFonts.filter (fun f => !bodyFonts.contains f)).isEmpty
    let sizeDiff := !(headerSizes.filter (fun f => !bodySizes.contains f)).isEmpty
    let formatDiffScore := PyFloat.div
      (PyFloat.ofInt ((if fontDiff then 1 else 0) + (if sizeDiff then 1 else 0))) ⟨2, 1⟩
    let bodyConsistency := PyFloat.div
      (PyFloat.ofInt ((if bodyFonts.length ≤ 2 then 1 else 0) +
        (if bodySizes.length ≤ 2 then 1 else 0))) ⟨2, 1⟩
    PyFloat.div (PyFloat.add formatDiffScore bodyConsistency) ⟨2, 1⟩

/-- The per-column content lengths of `_calculate_content_confidence`:
`len(row[col_idx].get("text", ""))` over the rows that have that column. -/
def colContentLens (colIdx : Nat) : List (List TextBlock) → Except PyErr (List PyFloat)
  | [] => .ok []
  | r :: rest =>
    if h : colIdx < r.length then
      match pyLen (r.get ⟨colIdx, h⟩).text with
      | .error e => .error e
      | .ok n =>
        match colContentLens colIdx rest with
        | .error e => .error e
        | .ok ns => .ok (PyFloat.ofInt n :: ns)
    else colContentLens colIdx rest

/-- Model of `_calculate_content_confidence`. -/
def calcContentConfidence (rows : List (List TextBlock)) : Except PyErr PyFloat :=
  match rows with
  | [] => .ok ⟨0, 1⟩
  | r0 :: _ =>
    match mapE (fun colIdx => colContentLens colIdx rows) (List.range r0.length) with
    | .error e => .error e
    | .ok allCols =>
      let colLengths := allCols.filter (fun c => !c.isEmpty)
      if colLengths.isEmpty then .ok ⟨0, 1⟩
      else
        let colScores := (colLengths.filter (fun c => !c.isEmpty)).map (fun lengths =>
          let avg := PyFloat.div (PyFloat.sumF lengths) (PyFloat.ofInt lengths.length)
          let variance := PyFloat.div
            (PyFloat.sumF (lengths.map (fun l =>
              PyFloat.mul (PyFloat.sub l avg) (PyFloat.sub l avg))))
            (PyFloat.ofInt lengths.length)
          let v := PyFloat.sub ⟨1, 1⟩ (PyFloat.div variance (PyFloat.add avg ⟨1, 1⟩))
          if PyFloat.ltB ⟨0, 1⟩ v then v else ⟨0, 1⟩)
        .ok (if colScores.isEmpty then ⟨0, 1⟩
             else PyFloat.div (PyFloat.sumF colScores) (PyFloat.ofInt colScores.length))

/-- Model of `_calculate_region_confidence`: unweighted average of the four
sub-scores. -/
def regionConfidence (rows : List (List TextBlock)) : Except PyErr PyFloat :=
  if rows.isEmpty then .ok ⟨0, 1⟩
  else
    match calcAlignmentConfidence rows with
    | .error e => .error e
    | .ok a =>
      match calcContentConfidence rows with
      | .error e => .error e
      | .ok c =>
        let s := calcStructureConfidence rows
        let f := calcFormatConfidence rows
        .ok (PyFloat.div (PyFloat.sumF [s, a, f, c]) (PyFloat.ofInt 4))

/-- Model of `RuleBasedTableExtractor._create_region_from_rows`. -/
def createRegionFromRows (rows : List (List TextBlock)) : Except PyErr RuleRegion :=
  match collectCoord 0 rows with
  | .error e => .error e
  | .ok xs0 =>
    match minF xs0 with
    | .error e => .error e
    | .ok minX =>
      match collectCoord 2 rows with
      | .error e => .error e
      | .ok xs2 =>
        match maxF xs2 with
        | .error e => .error e
        | .ok maxX =>
          match collectCoord 1 rows with
          | .error e => .error e
          | .ok ys1 =>
            match minF ys1 with
            | .error e => .error e
            | .ok minY =>
              match collectCoord 3 rows with
              | .error e => .error e
              | .ok ys3 =>
                match maxF ys3 with
                | .error e => .error e
                | .ok maxY =>
                  match regionConfidence rows with
                  | .error e => .error e
                  | .ok conf => .ok ⟨[minX, minY, maxX, maxY], rows, conf⟩

/-- The region-accumulation loop of `_find_table_regions`: runs of at least
two consecutive table-like rows become regions. -/
def regionsFold (acc : List RuleRegion) (currentRegion : List (List TextBlock)) :
    List (List TextBlock) → Except PyErr (List RuleRegion)
  | [] =>
    if !currentRegion.isEmpty && currentRegion.length ≥ 2 then
      match createRegionFromRows currentRegion with
      | .error e => .error e
      | .ok r => .ok (acc ++ [r])
    else .ok acc
  | row :: rest =>
    match isPotentialTableRow row with
    | .error e => .error e
    | .ok true => regionsFold acc (currentRegion ++ [row]) rest
    | .ok false =>
      if currentRegion.isEmpty then regionsFold acc [] rest
      else if currentRegion.length ≥ 2 then
        match createRegionFromRows currentRegion with
        | .error e => .error e
        | .ok r => regionsFold (acc ++ [r]) [] rest
      else regionsFold acc [] rest

/-- Model of `RuleBasedTableExtractor._find_table_regions`.  Note that this
runs outside the per-region `try` of `_extract_page_tables`, so its
exceptions propagate. -/
def ruleFindTableRegions (pageContent : PyVal) : Except PyErr (List RuleRegion) :=
  match pyGetD pageContent "layout".toList (.dict []) with
  | .error e => .error e
  | .ok layout =>
    match getTextBlocks layout with
    | .error e => .error e
    | .ok blocks =>
      if blocks.isEmpty then .ok []
      else
        match groupBlocksIntoRows blocks with
        | .error e => .error e
        | .ok rows => regionsFold [] [] rows

/-- A generated table id with the `uuid4().hex[:8]` suffix replaced by a
fixed placeholder. -/
def tableIdOf (docId : Str) (pageNum : Int) : Str :=
  "table-".toList ++ docId ++ "-".toList ++ (toString pageNum).toList ++ "-00000000".toList

/-- The default `min_confidence_threshold` of `RuleBasedTableExtractor`. -/
def ruleMinConfidenceThreshold : PyFloat := ⟨6, 10⟩

/-- The cells of one row group in `RuleBasedTableExtractor._extract_cells`:
stripped text, positional row/column, first row flagged as header, fixed
0.8 cell confidence. -/
def ruleCellsOfRow (ri ci : Nat) : List TextBlock → Except PyErr (List TableCell)
  | [] => .ok []
  | b :: bs =>
    match pyAsStrE b.text with
    | .error e => .error e
    | .ok s =>
      match ruleCellsOfRow ri (ci + 1) bs with
      | .error e => .error e
      | .ok cs => .ok (⟨pyStrip s, ri, ci, 1, 1, ri = 0, ⟨8, 10⟩⟩ :: cs)

/-- The row loop of `RuleBasedTableExtractor._extract_cells`. -/
def ruleCellsOfRows (ri : Nat) : List (List TextBlock) → Except PyErr (List TableCell)
  | [] => .ok []
  | row :: rest =>
    match ruleCellsOfRow ri 0 row with
    | .error e => .error e
    | .ok cs =>
      match ruleCellsOfRows (ri + 1) rest with
      | .error e => .error e
      | .ok cs' => .ok (cs ++ cs')

/-- Model of `RuleBasedTableExtractor._extract_cells`. -/
def ruleExtractCells (region : RuleRegion) : Except PyErr (List TableCell × Int × Int) :=
  if region.rows.isEmpty then .ok ([], 0, 0)
  else
    match ruleCellsOfRows 0 region.rows with
    | .error e => .error e
    | .ok cells =>
      .ok (cells, region.rows.length,
        ((region.rows.map (fun r => r.length)).foldl Nat.max 0 : Nat))

/-- Model of `RuleBasedTableExtractor._is_nearby` (threshold 50), with
Python's short-circuit `or`. -/
def ruleIsNearby (tableBbox : List PyFloat) (textBbox : PyVal) : Except PyErr Bool :=
  match pyIdx tableBbox 1 with
  | .error e => .error e
  | .ok t1 =>
    match pyIndexV textBbox 3 with
    | .error e => .error e
    | .ok b3v =>
      match pyToFloatE b3v with
      | .error e => .error e
      | .ok b3 =>
        if PyFloat.ltB (PyFloat.absF (PyFloat.sub t1 b3)) ⟨50, 1⟩ then .ok true
        else
          match pyIdx tableBbox 3 with
          | .error e => .error e
          | .ok t3 =>
            match pyIndexV textBbox 1 with
            | .error e => .error e
            | .ok b1v =>
              match pyToFloatE b1v with
              | .error e => .error e
              | .ok b1 => .ok (PyFloat.ltB (PyFloat.absF (PyFloat.sub t3 b1)) ⟨50, 1⟩)

/-- The element loop of `RuleBasedTableExtractor._extract_caption`. -/
def ruleCaptionLoop (bbox : List PyFloat) : List PyVal → Except PyErr (Option Str)
  | [] => .ok Option.none
  | e :: rest =>
    match pyGetD e "type".toList .none with
    | .error err => .error err
    | .ok tv =>
      if pyEq tv (.str "text".toList) then
        match pyGetD e "text".toList (.str []) with
        | .error err => .error err
        | .ok traw =>
          match pyAsStrE traw with
          | .error err => .error err
          | .ok s =>
            let low := pyLower (pyStrip s)
            if "table ".toList.isPrefixOf low && decide (low.length < 200) then
              match pyGetD e "bbox".toList .none with
              | .error err => .error err
              | .ok ebb =>
                if ebb.truthy then
                  match ruleIsNearby bbox ebb with
                  | .error err => .error err
                  | .ok true => .ok (some s)
                  | .ok false => ruleCaptionLoop bbox rest
                else ruleCaptionLoop bbox rest
            else ruleCaptionLoop bbox rest
      else ruleCaptionLoop bbox rest

/-- Model of `RuleBasedTableExtractor._extract_caption`. -/
def ruleExtractCaption (region : RuleRegion) (pageContent : PyVal) : Except PyErr (Option Str) :=
  if region.bbox.isEmpty then .ok Option.none
  else
    match pyGetD pageContent "layout".toList (.dict []) with
    | .error e => .error e
    | .ok layout =>
      match pyGetD layout "elements".toList (.list []) with
      | .error e => .error e
      | .ok ev =>
        match pyIter ev with
        | .error e => .error e
        | .ok es => ruleCaptionLoop region.bbox es

/-- The body of `RuleBasedTableExtractor._process_table_region` before its
catch-all `except`. -/
def ruleProcessTableRegionE (docId : Str) (pageNum : Int) (region : RuleRegion)
    (pageContent : PyVal) : Except PyErr (Option Table) :=
  match ruleExtractCells region with
  | .error e => .error e
  | .ok (cells, numRows, numCols) =>
    if cells.isEmpty then .ok Option.none
    else
      let conf := region.confidence
      if PyFloat.ltB conf ruleMinConfidenceThreshold then .ok Option.none
      else
        match ruleExtractCaption region pageContent with
        | .error e => .error e
        | .ok cap =>
          .ok (some ⟨tableIdOf docId pageNum, docId, pageNum, cells, numRows, numCols,
            cap, .rule_based, conf, some region.bbox⟩)

/-- Model of `RuleBasedTableExtractor._process_table_region`: any exception
in the body is caught, logged and turned into `None`. -/
def ruleProcessTableRegion (docId : Str) (pageNum : Int) (region : RuleRegion)
    (pageContent : PyVal) : Option Table :=
  match ruleProcessTableRegionE docId pageNum region pageContent with
  | .ok r => r
  | .error _ => Option.none

/-- Model of `RuleBasedTableExtractor._extract_page_tables`: find regions
(exceptions propagate), then process each region with per-region
isolation. -/
def rulePageTables (docId : Str) (pageNum : Int) (pageContent : PyVal) :
    Except PyErr (List Table) :=
  match ruleFindTableRegions pageContent with
  | .error e => .error e
  | .ok regions =>
    .ok (regions.filterMap (fun r => ruleProcessTableRegion docId pageNum r pageContent))

/-- The page loop of `RuleBasedTableExtractor.extract_tables`
(`enumerate(pages, 1)`). -/
def rulePagesLoop (docId : Str) (n : Int) : List PyVal → Except PyErr (List Table)
  | [] => .ok []
  | p :: rest =>
    match rulePageTables docId n p with
    | .error e => .error e
    | .ok ts =>
      match rulePagesLoop docId (n + 1) rest with
      | .error e => .error e
      | .ok ts' => .ok (ts ++ ts')

/-- Model of `RuleBasedTableExtractor.extract_tables`: its `try/except`
logs and re-raises, so every exception from the page loop propagates. -/
def ruleExtractTables (docId : Str) (parsedContent : PyVal) : Except PyErr (List Table) :=
  match pyGetD parsedContent "pages".toList (.list []) with
  | .error e => .error e
  | .ok pv =>
    match pyIter pv with
    | .error e => .error e
    | .ok pages => rulePagesLoop docId 1 pages

/-- The `rows` dict of `RuleBasedTableExtractor.validate_table`
(`rows.setdefault(cell.row, []).append(cell)`): an association list in
first-seen key order. -/
def groupCellRows (cells : List TableCell) : List (Int × List TableCell) :=
  cells.foldl (fun acc c =>
    if acc.any (fun kv => kv.1 = c.row) then
      acc.map (fun kv => if kv.1 = c.row then (kv.1, kv.2 ++ [c]) else kv)
    else acc ++ [(c.row, [c])]) []

/-- Model of `RuleBasedTableExtractor.validate_table` (nothing in its body
can raise, so the `try/except` is inert and the model is a plain boolean
function). -/
def ruleValidateTable (t : Table) : Bool :=
  if t.cells.isEmpty then false
  else if decide (t.num_rows < 2) || decide (t.num_cols < 2) then false
  else if t.cells.any (fun c =>
      decide (c.row < 0) || decide (t.num_rows ≤ c.row) ||
      decide (c.col < 0) || decide (t.num_cols ≤ c.col)) then false
  else if PyFloat.ltB
      (PyFloat.div (PyFloat.ofInt (t.cells.countP (fun c => !(pyStrip c.text).isEmpty)))
        (PyFloat.ofInt t.cells.length)) ⟨1, 2⟩ then false
  else
    let rows := groupCellRows t.cells
    if !rows.all (fun kv => decide ((kv.2.length : Int) = t.num_cols)) then false
    else
      let keys := rows.map (fun kv => kv.1)
      decide (∀ k ∈ keys, k ∈ pyRange 0 t.num_rows) &&
        decide (∀ i ∈ pyRange 0 t.num_rows, i ∈ keys)

/-! Model-driven extractor (`table_extraction/ai_driven.py`). -/

/-- The default `min_confidence_threshold` of `DoclingTableExtractor`. -/
def aiMinConfidenceThreshold : PyFloat := ⟨7, 10⟩

/-- Coercion of a `PyVal` into a pydantic `int` field (`bool` is an `int`
in Python); anything else fails validation. -/
def pyAsIntP : PyVal → Except PyErr Int
  | .int n => .ok n
  | .bool b => .ok (if b then 1 else 0)
  | _ => .error .validationError

/-- Coercion of a `PyVal` into a pydantic `bool` field. -/
def pyAsBoolP : PyVal → Except PyErr Bool
  | .bool b => .ok b
  | _ => .error .validationError

/-- Coercion of a `PyVal` into a pydantic `float` field. -/
def pyAsFloatP (v : PyVal) : Except PyErr PyFloat :=
  match v.asFloat? with
  | some f => .ok f
  | Option.none => .error .validationError

/-- The body of `DoclingTableExtractor._process_cell` before its catch-all
`except`: read each field with its default and build the pydantic
`TableCell` (whose `confidence` must lie in `[0, 1]`). -/
def aiProcessCellE (cellData : PyVal) : Except PyErr TableCell :=
  match pyGetD cellData "text".toList (.str []) with
  | .error e => .error e
  | .ok traw =>
    match pyAsStrE traw with
    | .error e => .error e
    | .ok s =>
      match pyGetD cellData "row".toList (.int 0) with
      | .error e => .error e
      | .ok rowv =>
        match pyAsIntP rowv with
        | .error e => .error e
        | .ok row =>
          match pyGetD cellData "col".toList (.int 0) with
          | .error e => .error e
          | .ok colv =>
            match pyAsIntP colv with
            | .error e => .error e
            | .ok col =>
              match pyGetD cellData "rowspan".toList (.int 1) with
              | .error e => .error e
              | .ok rsv =>
                match pyAsIntP rsv with
                | .error e => .error e
                | .ok rs =>
                  match pyGetD cellData "colspan".toList (.int 1) with
                  | .error e => .error e
                  | .ok csv =>
                    match pyAsIntP csv with
                    | .error e => .error e
                    | .ok cs =>
                      match pyGetD cellData "is_header".toList (.bool false) with
                      | .error e => .error e
                      | .ok hv =>
                        match pyAsBoolP hv with
                        | .error e => .error e
                        | .ok h =>
                          match pyGetD cellData "confidence".toList (.float ⟨1, 1⟩) with
                          | .error e => .error e
                          | .ok cv =>
                            match pyAsFloatP cv with
                            | .error e => .error e
                            | .ok c =>
                              if PyFloat.ltB c ⟨0, 1⟩ || PyFloat.ltB ⟨1, 1⟩ c then
                                .error .validationError
                              else .ok ⟨pyStrip s, row, col, rs, cs, h, c⟩

/-- Model of `DoclingTableExtractor._process_cell`: failures are caught,
logged, and turn into `None`. -/
def aiProcessCell (cellData : PyVal) : Option TableCell :=
  match aiProcessCellE cellData with
  | .ok c => some c
  | .error _ => Option.none

/-- The explicit-cell loop of `DoclingTableExtractor._extract_cells`:
skip unprocessable cells, track `max(cell.row + cell.rowspan)` and
`max(cell.col + cell.colspan)`. -/
def aiExplicitCellsLoop (acc : List TableCell) (maxRow maxCol : Int) :
    List PyVal → List TableCell × Int × Int
  | [] => (acc, maxRow, maxCol)
  | cd :: rest =>
    match aiProcessCell cd with
    | Option.none => aiExplicitCellsLoop acc maxRow maxCol rest
    | some cell =>
      aiExplicitCellsLoop (acc ++ [cell]) (max maxRow (cell.row + cell.rowspan))
        (max maxCol (cell.col + cell.colspan)) rest

/-- All position values `text.get(key, 0)` occurring in a list of blocks
(used by `_get_row_positions` and `_get_column_positions`). -/
def aiPositionsFromBlocks (key : Str) : List PyVal → Except PyErr (List PyVal)
  | [] => .ok []
  | b :: rest =>
    match pyGetD b "text".toList (.list []) with
    | .error e => .error e
    | .ok tv =>
      match pyIter tv with
      | .error e => .error e
      | .ok texts =>
        match mapE (fun t => pyGetD t key (.int 0)) texts with
        | .error e => .error e
        | .ok vs =>
          match aiPositionsFromBlocks key rest with
          | .error e => .error e
          | .ok vs' => .ok (vs ++ vs')

/-- Ascending order on numbers, for `sorted(positions)`. -/
def fleOrder (a b : PyFloat) : Prop := PyFloat.leB a b = true

instance : DecidableRel fleOrder := fun a b => by
  unfold fleOrder
  infer_instance

/-- Model of `sorted(set(positions))` over numeric position values
(a non-numeric position makes the comparison-based sort raise
`TypeError`). -/
def aiSortedPositions (vals : List PyVal) : Except PyErr (List PyFloat) :=
  match mapE pyToFloatE vals.eraseDups with
  | .error e => .error e
  | .ok fs => .ok (List.insertionSort fleOrder fs)

/-- The `any(abs(pos - col_pos) < 5 ...)` test of
`_has_consistent_alignment` for one block's position values (with Python's
lazy evaluation: positions are only used in arithmetic when the inner loop
runs). -/
def blockAligned (cols : List PyFloat) : List PyVal → Except PyErr Bool
  | [] => .ok false
  | v :: rest =>
    if cols.isEmpty then blockAligned cols rest
    else
      match pyToFloatE v with
      | .error e => .error e
      | .ok p =>
        if cols.any (fun c => PyFloat.ltB (PyFloat.absF (PyFloat.sub p c)) ⟨5, 1⟩) then .ok true
        else blockAligned cols rest

/-- The aligned-block count of `_has_consistent_alignment`. -/
def alignCountLoop (cols : List PyFloat) : List PyVal → Except PyErr Int
  | [] => .ok 0
  | b :: rest =>
    match pyGetD b "text".toList (.list []) with
    | .error e => .error e
    | .ok tv =>
      match pyIter tv with
      | .error e => .error e
      | .ok texts =>
        match mapE (fun t => pyGetD t "x".toList (.int 0)) texts with
        | .error e => .error e
        | .ok vals =>
          match blockAligned cols vals with
          | .error e => .error e
          | .ok a =>
            match alignCountLoop cols rest with
            | .error e => .error e
            | .ok n => .ok ((if a then 1 else 0) + n)

/-- Model of `DoclingTableExtractor._has_consistent_alignment`:
`alignment_count / len(blocks) > 0.7` (dividing by zero for an empty block
list). -/
def aiHasConsistentAlignment (blocks : List PyVal) (cols : List PyFloat) :
    Except PyErr Bool :=
  match alignCountLoop cols blocks with
  | .error e => .error e
  | .ok n =>
    if blocks.length = 0 then .error .zeroDivisionError
    else .ok (PyFloat.ltB ⟨7, 10⟩
      (PyFloat.div (PyFloat.ofInt n) (PyFloat.ofInt blocks.length)))

/-- Model of `DoclingTableExtractor._is_implicit_table`. -/
def aiIsImplicitTable (element : PyVal) : Except PyErr Bool :=
  match pyGetD element "type".toList .none with
  | .error e => .error e
  | .ok tv =>
    if !pyEq tv (.str "text".toList) then .ok false
    else
      match pyGetD element "blocks".toList (.list []) with
      | .error e => .error e
      | .ok bv =>
        match pyIter bv with
        | .error e => .error e
        | .ok blocks =>
          if blocks.length < 2 then .ok false
          else
            match aiPositionsFromBlocks "x".toList blocks with
            | .error e => .error e
            | .ok colVals =>
              match aiSortedPositions colVals with
              | .error e => .error e
              | .ok cols =>
                if cols.length ≤ 1 then .ok false
                else aiHasConsistentAlignment blocks cols

/-- The element loop of `DoclingTableExtractor._find_table_regions`:
explicit `"table"` elements, plus elements detected as implicit tables. -/
def aiFindRegionsLoop : List PyVal → Except PyErr (List PyVal)
  | [] => .ok []
  | e :: rest =>
    match pyGetD e "type".toList .none with
    | .error err => .error err
    | .ok tv =>
      if pyEq tv (.str "table".toList) then
        match aiFindRegionsLoop rest with
        | .error err => .error err
        | .ok rs => .ok (e :: rs)
      else
        match aiIsImplicitTable e with
        | .error err => .error err
        | .ok true =>
          match aiFindRegionsLoop rest with
          | .error err => .error err
          | .ok rs => .ok (e :: rs)
        | .ok false => aiFindRegionsLoop rest

/-- Model of `DoclingTableExtractor._find_table_regions`. -/
def aiFindTableRegions (pageContent : PyVal) : Except PyErr (List PyVal) :=
  match pyGetD pageContent "layout".toList (.dict []) with
  | .error e => .error e
  | .ok layout =>
    match pyGetD layout "elements".toList (.list []) with
    | .error e => .error e
    | .ok ev =>
      match pyIter ev with
      | .error e => .error e
      | .ok es => aiFindRegionsLoop es

/-- The index search of `DoclingTableExtractor._get_position_index`: first
position within 5 units, else `len(positions) - 1`. -/
def posIndexLoop (p : PyFloat) (i : Int) : List PyFloat → Option Int
  | [] => Option.none
  | pos :: rest =>
    if PyFloat.ltB (PyFloat.absF (PyFloat.sub p pos)) ⟨5, 1⟩ then some i
    else posIndexLoop p (i + 1) rest

/-- Model of `DoclingTableExtractor._get_position_index` (the position is
used in arithmetic, so a non-numeric one raises `TypeError`). -/
def aiGetPositionIndex (position : PyVal) (positions : List PyFloat) : Except PyErr Int :=
  match pyToFloatE position with
  | .error e => .error e
  | .ok p => .ok ((posIndexLoop p 0 positions).getD ((positions.length : Int) - 1))

/-- The per-text-item cell construction of `_process_implicit_table`. -/
def aiImplicitBlockCells (rows cols : List PyFloat) : List PyVal → Except PyErr (List TableCell)
  | [] => .ok []
  | t :: rest =>
    match pyGetD t "y".toList (.int 0) with
    | .error e => .error e
    | .ok yv =>
      match aiGetPositionIndex yv rows with
      | .error e => .error e
      | .ok row =>
        match pyGetD t "x".toList (.int 0) with
        | .error e => .error e
        | .ok xv =>
          match aiGetPositionIndex xv cols with
          | .error e => .error e
          | .ok col =>
            match pyGetD t "content".toList (.str []) with
            | .error e => .error e
            | .ok cv =>
              match pyAsStrE cv with
              | .error e => .error e
              | .ok s =>
                match aiImplicitBlockCells rows cols rest with
                | .error e => .error e
                | .ok cs =>
                  .ok (⟨pyStrip s, row, col, 1, 1, decide (row = 0), ⟨8, 10⟩⟩ :: cs)

/-- The block loop of `_process_implicit_table`. -/
def aiImplicitCellsLoop (rows cols : List PyFloat) : List PyVal → Except PyErr (List TableCell)
  | [] => .ok []
  | b :: rest =>
    match pyGetD b "text".toList (.list []) with
    | .error e => .error e
    | .ok tv =>
      match pyIter tv with
      | .error e => .error e
      | .ok texts =>
        match aiImplicitBlockCells rows cols texts with
        | .error e => .error e
        | .ok cs =>
          match aiImplicitCellsLoop rows cols rest with
          | .error e => .error e
          | .ok cs' => .ok (cs ++ cs')

/-- Model of `DoclingTableExtractor._process_implicit_table`. -/
def aiProcessImplicitTable (region : PyVal) : Except PyErr (List TableCell × Int × Int) :=
  match pyGetD region "blocks".toList (.list []) with
  | .error e => .error e
  | .ok bv =>
    match pyIter bv with
    | .error e => .error e
    | .ok blocks =>
      match aiPositionsFromBlocks "y".toList blocks with
      | .error e => .error e
      | .ok rowVals =>
        match aiSortedPositions rowVals with
        | .error e => .error e
        | .ok rows =>
          match aiPositionsFromBlocks "x".toList blocks with
          | .error e => .error e
          | .ok colVals =>
            match aiSortedPositions colVals with
            | .error e => .error e
            | .ok cols =>
              match aiImplicitCellsLoop rows cols blocks with
              | .error e => .error e
              | .ok cells => .ok (cells, rows.length, cols.length)

/-- Model of `DoclingTableExtractor._extract_cells`: explicit `"table"`
regions map their supplied cell records, other regions take the implicit
path. -/
def aiExtractCells (region : PyVal) : Except PyErr (List TableCell × Int × Int) :=
  match pyGetD region "type".toList .none with
  | .error e => .error e
  | .ok tv =>
    if pyEq tv (.str "table".toList) then
      match pyGetD region "cells".toList (.list []) with
      | .error e => .error e
      | .ok cellsV =>
        match pyIter cellsV with
        | .error e => .error e
        | .ok cds => .ok (aiExplicitCellsLoop [] 0 0 cds)
    else aiProcessImplicitTable region

/-- Model of `_calculate_structure_confidence` (model-driven):
`min(1.0, len(cells) / (|distinct rows| * |distinct cols|))`. -/
def aiStructureConfidence (cells : List TableCell) : PyFloat :=
  let rowCount := ((cells.map (fun c => c.row)).eraseDups).length
  let colCount := ((cells.map (fun c => c.col)).eraseDups).length
  let v := PyFloat.div (PyFloat.ofInt cells.length) (PyFloat.ofInt (rowCount * colCount))
  if PyFloat.ltB v ⟨1, 1⟩ then v else ⟨1, 1⟩

/-- Model of `_calculate_layout_confidence`. -/
def aiLayoutConfidence (region : PyVal) : Except PyErr PyFloat :=
  match pyGetD region "type".toList .none with
  | .error e => .error e
  | .ok tv =>
    if pyEq tv (.str "table".toList) then .ok ⟨1, 1⟩
    else
      match pyGetD region "blocks".toList (.list []) with
      | .error e => .error e
      | .ok bv =>
        match pyIter bv with
        | .error e => .error e
        | .ok blocks =>
          match aiPositionsFromBlocks "x".toList blocks with
          | .error e => .error e
          | .ok colVals =>
            match aiSortedPositions colVals with
            | .error e => .error e
            | .ok cols =>
              if cols.isEmpty then .ok ⟨5, 10⟩
              else
                match mapE (fun b => aiHasConsistentAlignment [b] cols) blocks with
                | .error e => .error e
                | .ok aligned =>
                  let score := PyFloat.div
                    (PyFloat.ofInt ((aligned.filter (fun a => a)).length))
                    (PyFloat.ofInt blocks.length)
                  .ok (if PyFloat.ltB score ⟨1, 1⟩ then score else ⟨1, 1⟩)

/-- Model of `DoclingTableExtractor._calculate_confidence`: average of the
structure, content and layout factors. -/
def aiCalculateConfidence (cells : List TableCell) (region : PyVal) : Except PyErr PyFloat :=
  if cells.isEmpty then .ok ⟨0, 1⟩
  else
    match aiLayoutConfidence region with
    | .error e => .error e
    | .ok lay =>
      let s := aiStructureConfidence cells
      let c := PyFloat.div (PyFloat.sumF (cells.map (fun cl => cl.confidence)))
        (PyFloat.ofInt cells.length)
      .ok (PyFloat.div (PyFloat.sumF [s, c, lay]) (PyFloat.ofInt 3))

/-- Model of `DoclingTableExtractor._is_nearby` on raw bbox values. -/
def aiIsNearby (tableBbox textBbox : PyVal) : Except PyErr Bool :=
  match pyIndexV tableBbox 1 with
  | .error e => .error e
  | .ok t1v =>
    match pyToFloatE t1v with
    | .error e => .error e
    | .ok t1 =>
      match pyIndexV textBbox 3 with
      | .error e => .error e
      | .ok b3v =>
        match pyToFloatE b3v with
        | .error e => .error e
        | .ok b3 =>
          if PyFloat.ltB (PyFloat.absF (PyFloat.sub t1 b3)) ⟨50, 1⟩ then .ok true
          else
            match pyIndexV tableBbox 3 with
            | .error e => .error e
            | .ok t3v =>
              match pyToFloatE t3v with
              | .error e => .error e
              | .ok t3 =>
                match pyIndexV textBbox 1 with
                | .error e => .error e
                | .ok b1v =>
                  match pyToFloatE b1v with
                  | .error e => .error e
                  | .ok b1 => .ok (PyFloat.ltB (PyFloat.absF (PyFloat.sub t3 b1)) ⟨50, 1⟩)

/-- The nearby-caption element loop of
`DoclingTableExtractor._extract_caption`. -/
def aiCaptionLoop (bbox : PyVal) : List PyVal → Except PyErr (Option Str)
  | [] => .ok Option.none
  | e :: rest =>
    match pyGetD e "type".toList .none with
    | .error err => .error err
    | .ok tv =>
      if pyEq tv (.str "text".toList) then
        match pyGetD e "text".toList (.str []) with
        | .error err => .error err
        | .ok traw =>
          match pyAsStrE traw with
          | .error err => .error err
          | .ok s =>
            let low := pyLower (pyStrip s)
            if "table ".toList.isPrefixOf low && decide (low.length < 200) then
              match pyGetD e "bbox".toList .none with
              | .error err => .error err
              | .ok ebb =>
                if ebb.truthy then
                  match aiIsNearby bbox ebb with
                  | .error err => .error err
                  | .ok true => .ok (some s)
                  | .ok false => aiCaptionLoop bbox rest
                else aiCaptionLoop bbox rest
            else aiCaptionLoop bbox rest
      else aiCaptionLoop bbox rest

/-- Model of `DoclingTableExtractor._extract_caption`: an explicit truthy
`caption` value wins (as a string — a non-string one would fail pydantic
validation of the enclosing `Table`, which the region handler catches just
like an exception here); otherwise search nearby caption-like text. -/
def aiExtractCaption (region : PyVal) (pageContent : PyVal) : Except PyErr (Option Str) :=
  match pyGetD region "caption".toList .none with
  | .error e => .error e
  | .ok cap =>
    if cap.truthy then
      match pyAsStrE cap with
      | .error e => .error e
      | .ok s => .ok (some s)
    else
      match pyGetD region "bbox".toList .none with
      | .error e => .error e
      | .ok bb =>
        if !bb.truthy then .ok Option.none
        else
          match pyGetD pageContent "layout".toList (.dict []) with
          | .error e => .error e
          | .ok layout =>
            match pyGetD layout "elements".toList (.list []) with
            | .error e => .error e
            | .ok ev =>
              match pyIter ev with
              | .error e => .error e
              | .ok es => aiCaptionLoop bb es

/-- The attribute access `TableDetectionMethod.AI_DRIVEN` performed by
`_process_table_region` (`ai_driven.py` line 172): the enum has members
`DOCLING_DRIVEN`, `RULE_BASED` and `HYBRID` only, so this lookup raises
`AttributeError`. -/
def aiDetectionMethodTag : Except PyErr TableDetectionMethod :=
  .error .attributeError

/-- Pydantic validation of the `bbox` field (`Optional[List[float]]`). -/
def pyAsBboxP : PyVal → Except PyErr (Option (List PyFloat))
  | .none => .ok Option.none
  | .list xs =>
    match mapE pyAsFloatP xs with
    | .error e => .error e
    | .ok fs => .ok (some fs)
  | _ => .error .validationError

/-- The body of `DoclingTableExtractor._process_table_region` before its
catch-all `except`, with Python's left-to-right evaluation of the
`Table(...)` arguments: the caption is computed, then the
`TableDetectionMethod.AI_DRIVEN` lookup raises. -/
def aiProcessTableRegionE (docId : Str) (pageNum : Int) (region : PyVal)
    (pageContent : PyVal) : Except PyErr (Option Table) :=
  match aiExtractCells region with
  | .error e => .error e
  | .ok (cells, numRows, numCols) =>
    if cells.isEmpty then .ok Option.none
    else
      match aiCalculateConfidence cells region with
      | .error e => .error e
      | .ok conf =>
        if PyFloat.ltB conf aiMinConfidenceThreshold then .ok Option.none
        else
          match aiExtractCaption region pageContent with
          | .error e => .error e
          | .ok cap =>
            match aiDetectionMethodTag with
            | .error e => .error e
            | .ok dm =>
              match pyGetD region "bbox".toList .none with
              | .error e => .error e
              | .ok bbv =>
                match pyAsBboxP bbv with
                | .error e => .error e
                | .ok bb =>
                  .ok (some ⟨tableIdOf docId pageNum, docId, pageNum, cells,
                    numRows, numCols, cap, dm, conf, bb⟩)

/-- Model of `DoclingTableExtractor._process_table_region`: any exception
in the body is caught, logged and turned into `None`. -/
def aiProcessTableRegion (docId : Str) (pageNum : Int) (region : PyVal)
    (pageContent : PyVal) : Option Table :=
  match aiProcessTableRegionE docId pageNum region pageContent with
  | .ok r => r
  | .error _ => Option.none

/-- Model of `DoclingTableExtractor._extract_page_tables`. -/
def aiPageTables (docId : Str) (pageNum : Int) (pageContent : PyVal) :
    Except PyErr (List Table) :=
  match aiFindTableRegions pageContent with
  | .error e => .error e
  | .ok regions =>
    .ok (regions.filterMap (fun r => aiProcessTableRegion docId pageNum r pageContent))

/-- The page loop of `DoclingTableExtractor.extract_tables`. -/
def aiPagesLoop (docId : Str) (n : Int) : List PyVal → Except PyErr (List Table)
  | [] => .ok []
  | p :: rest =>
    match aiPageTables docId n p with
    | .error e => .error e
    | .ok ts =>
      match aiPagesLoop docId (n + 1) rest with
      | .error e => .error e
      | .ok ts' => .ok (ts ++ ts')

/-- Model of `DoclingTableExtractor.extract_tables` (its `try/except` logs
and re-raises). -/
def aiExtractTables (docId : Str) (parsedContent : PyVal) : Except PyErr (List Table) :=
  match pyGetD parsedContent "pages".toList (.list []) with
  | .error e => .error e
  | .ok pv =>
    match pyIter pv with
    | .error e => .error e
    | .ok pages => aiPagesLoop docId 1 pages

/-- The empty `num_rows × num_cols` occupancy grid of
`_verify_no_cell_overlap`. -/
def mkGrid (r c : Int) : List (List Bool) :=
  List.replicate r.toNat (List.replicate c.toNat false)

/-- The grid positions a cell occupies, in the iteration order of
`_verify_no_cell_overlap` (`range(row, row+rowspan) × range(col,
col+colspan)`, row-major). -/
def cellPositions (c : TableCell) : List (Int × Int) :=
  ((pyRange c.row (c.row + c.rowspan)).map
    (fun r => (pyRange c.col (c.col + c.colspan)).map (fun cc => (r, cc)))).flatten

/-- Marking loop over one cell's positions: `grid[r][c]` raises
`IndexError` outside the grid, an already-occupied position reports an
overlap (`none`), otherwise the position is marked. -/
def markPositions (g : List (List Bool)) : List (Int × Int) → Except PyErr (Option (List (List Bool)))
  | [] => .ok (some g)
  | (r, c) :: rest =>
    match pyIdx g r with
    | .error e => .error e
    | .ok row =>
      match pyIdx row c with
      | .error e => .error e
      | .ok occupied =>
        if occupied then .ok Option.none
        else
          match pySetE row c true with
          | .error e => .error e
          | .ok row' =>
            match pySetE g r row' with
            | .error e => .error e
            | .ok g' => markPositions g' rest

/-- The cell loop of `_verify_no_cell_overlap`. -/
def markCells (g : List (List Bool)) : List TableCell → Except PyErr (Option (List (List Bool)))
  | [] => .ok (some g)
  | cell :: rest =>
    match markPositions g (cellPositions cell) with
    | .error e => .error e
    | .ok Option.none => .ok Option.none
    | .ok (some g') => markCells g' rest

/-- Model of `DoclingTableExtractor._verify_no_cell_overlap` (exceptions
escape to the caller's `try`). -/
def verifyNoCellOverlap (t : Table) : Except PyErr Bool :=
  match markCells (mkGrid t.num_rows t.num_cols) t.cells with
  | .error e => .error e
  | .ok Option.none => .ok false
  | .ok (some _) => .ok true

/-- The body of `DoclingTableExtractor.validate_table` inside its `try`. -/
def aiValidateBody (t : Table) : Except PyErr Bool :=
  if decide (t.num_rows < 1) || decide (t.num_cols < 2) then .ok false
  else if t.cells.any (fun c =>
      decide (c.row < 0) || decide (t.num_rows ≤ c.row) ||
      decide (c.col < 0) || decide (t.num_cols ≤ c.col)) then .ok false
  else if PyFloat.ltB
      (PyFloat.div (PyFloat.ofInt (t.cells.countP (fun c => !(pyStrip c.text).isEmpty)))
        (PyFloat.ofInt t.cells.length)) ⟨1, 2⟩ then .ok false
  else
    match verifyNoCellOverlap t with
    | .error e => .error e
    | .ok b => .ok b

/-- Model of `DoclingTableExtractor.validate_table`: empty cell lists are
rejected up front, and any exception inside the body is caught, logged and
turned into `False`. -/
def aiValidateTable (t : Table) : Bool :=
  if t.cells.isEmpty then false
  else
    match aiValidateBody t with
    | .ok b => b
    | .error _ => false

/-! Specification-side definitions used to state the claims, and concrete
inputs used by counterexamples and witnesses. -/

/-- Modelled from the spec (section 4.2, step 2): greedy anchor-based row
chunking.  Each row consists of an anchor block followed by the longest run
of subsequent blocks whose key is within `tol` of the anchor's key — the
comparison is always against the block that opened the row. -/
def anchorChunks (tol : PyFloat) : List (PyFloat × β) → List (List (PyFloat × β))
  | [] => []
  | b :: bs =>
    (b :: bs.takeWhile (fun x => PyFloat.leB (PyFloat.absF (PyFloat.sub x.1 b.1)) tol)) ::
      anchorChunks tol (bs.dropWhile (fun x => PyFloat.leB (PyFloat.absF (PyFloat.sub x.1 b.1)) tol))
termination_by l => l.length
decreasing_by
  simp only [List.length_cons]
  exact Nat.lt_succ_of_le (List.dropWhile_sublist _).length_le

/-- Split a string at every occurrence of a character, as Python
`s.split(sep)` (never returns an empty list). -/
def splitOnChar (sep : Char) : Str → List Str
  | [] => [[]]
  | c :: cs =>
    if c = sep then [] :: splitOnChar sep cs
    else
      match splitOnChar sep cs with
      | [] => [[c]]
      | h :: t => (c :: h) :: t

/-- Parse one markdown pipe-row back into its cell texts: split on `"|"`,
drop the empty fragments before the first and after the last pipe, and
strip the single framing space on each side of every cell. -/
def parseRow (line : Str) : List Str :=
  (((splitOnChar '|' line).drop 1).dropLast).map (fun p => (p.drop 1).dropLast)

/-- The lines a truthy caption contributes once the markdown text is split
on newlines: the bold caption line and the blank line after it. -/
def captionSplitLines (t : Table) : List Str :=
  match t.caption with
  | some c => if c.isEmpty then [] else ["**".toList ++ c ++ "**".toList, []]
  | Option.none => []

/-- Entry of a 2-dimensional grid at row `r`, column `c`. -/
def gridEntry (g : List (List Str)) (r c : Nat) : Option Str :=
  (g[r]?).bind (fun row => row[c]?)

/-- Modelled from the spec (section 4.2, step 1, as amended): the text
block an element contributes to the rule-based extractor's clustering, or
`none` when it is filtered out — which happens exactly when it is not of
type `"text"`, its text is not a string, or its stripped lowercased text
starts with `"table "` and contains `":"`. -/
def candInfo (e : PyVal) : Option TextBlock :=
  match pyGetD e "type".toList .none with
  | .error _ => Option.none
  | .ok tv =>
    if pyEq tv (.str "text".toList) then
      match pyGetD e "text".toList (.str []) with
      | .error _ => Option.none
      | .ok traw =>
        match pyAsStrE traw with
        | .error _ => Option.none
        | .ok s =>
          let low := pyLower (pyStrip s)
          if "table ".toList.isPrefixOf low && low.contains ':' then Option.none
          else
            match pyGetD e "bbox".toList (.list [.int 0, .int 0, .int 0, .int 0]) with
            | .error _ => Option.none
            | .ok bb =>
              match pyGetD e "font".toList .none with
              | .error _ => Option.none
              | .ok f =>
                match pyGetD e "font_size".toList .none with
                | .error _ => Option.none
                | .ok fs => some ⟨traw, bb, f, fs⟩
    else Option.none

/-- One explicit cell record of the repository's own
`sample_docling_output` test fixture. -/
def aiSampleCellDict (txt : String) (r c : Int) (hdr : Bool) (conf : PyFloat) (fsz : Int) : PyVal :=
  .dict [("text".toList, .str txt.toList), ("row".toList, .int r), ("col".toList, .int c),
    ("is_header".toList, .bool hdr), ("confidence".toList, .float conf),
    ("font".toList, .str "Arial".toList), ("font_size".toList, .int fsz)]

/-- The explicit table region of the repository's `sample_docling_output`
test fixture (`tests/test_docling_table_extraction.py`). -/
def aiSampleRegion : PyVal :=
  .dict [("type".toList, .str "table".toList),
    ("bbox".toList, .list [.int 50, .int 50, .int 500, .int 300]),
    ("cells".toList, .list [
      aiSampleCellDict "Header 1" 0 0 true ⟨95, 100⟩ 12,
      aiSampleCellDict "Header 2" 0 1 true ⟨95, 100⟩ 12,
      aiSampleCellDict "Data 1" 1 0 false ⟨9, 10⟩ 10,
      aiSampleCellDict "Data 2" 1 1 false ⟨9, 10⟩ 10]),
    ("caption".toList, .str "Sample Table".toList)]

/-- The single page of the `sample_docling_output` fixture. -/
def aiSamplePage : PyVal :=
  .dict [("layout".toList, .dict [("elements".toList, .list [aiSampleRegion])])]

/-- The repository's `sample_docling_output` test fixture, whose extraction
the repository's own test expects to return exactly one table tagged
`DOCLING_DRIVEN`. -/
def aiSampleDoclingOutput : PyVal :=
  .dict [("pages".toList, .list [aiSamplePage])]

/-- A one-page document whose single candidate row consists of two
horizontally adjacent text elements (consecutive gap exactly zero). -/
def zeroGapDoc : PyVal :=
  .dict [("pages".toList, .list [
    .dict [("layout".toList, .dict [("elements".toList, .list [
      .dict [("type".toList, .str "text".toList), ("text".toList, .str "a".toList),
        ("bbox".toList, .list [.int 0, .int 0, .int 10, .int 5])],
      .dict [("type".toList, .str "text".toList), ("text".toList, .str "b".toList),
        ("bbox".toList, .list [.int 10, .int 0, .int 20, .int 5])]])])]])]

/-- A one-page document with no layout elements at all (the repository's
own `test_empty_document` input). -/
def emptyElementsDoc : PyVal :=
  .dict [("pages".toList, .list [
    .dict [("layout".toList, .dict [("elements".toList, .list [])])]])]

/-- A text element whose text begins with `"table "` followed by further
content but contains no colon. -/
def c9Element : PyVal :=
  .dict [("type".toList, .str "text".toList),
    ("text".toList, .str "Table 2 continued".toList),
    ("bbox".toList, .list [.int 0, .int 0, .int 5, .int 5])]

/-- A layout holding only `c9Element`. -/
def c9Layout : PyVal :=
  .dict [("elements".toList, .list [c9Element])]

/-- The text block that `c9Element` contributes to the clustering set. -/
def c9Block : TextBlock :=
  ⟨.str "Table 2 continued".toList, .list [.int 0, .int 0, .int 5, .int 5],
    .none, .none⟩

/-- A registered extractor whose `extract_tables` call raises. -/
def c2Behavior : ExtractorBehavior :=
  ⟨.error .typeError, fun _ => .ok true⟩

/-- A service with one (raising) registered extractor. -/
def c2Service : ServiceState :=
  ⟨some c2Behavior, Option.none, Option.none⟩

/-- A model-driven table with confidence 0.9 and bbox `[0, 0, 10, 10]`. -/
def c3HighTable : Table :=
  ⟨"t1".toList, "d".toList, 1, [⟨"a".toList, 0, 0, 1, 1, true, ⟨1, 1⟩⟩], 1, 1,
    Option.none, .docling_driven, ⟨9, 10⟩,
    some [⟨0, 1⟩, ⟨0, 1⟩, ⟨10, 1⟩, ⟨10, 1⟩]⟩

/-- A model-driven table with confidence 0.5 and the same bbox as
`c3HighTable`. -/
def c3LowTable : Table :=
  ⟨"t2".toList, "d".toList, 1, [⟨"b".toList, 0, 0, 1, 1, true, ⟨1, 1⟩⟩], 1, 1,
    Option.none, .docling_driven, ⟨5, 10⟩,
    some [⟨0, 1⟩, ⟨0, 1⟩, ⟨10, 1⟩, ⟨10, 1⟩]⟩

/-- A model-driven table with confidence 0.95 and bbox `[0, 0, 10, 10]`. -/
def c4DoclingTable : Table :=
  ⟨"t1".toList, "d".toList, 1, [⟨"a".toList, 0, 0, 1, 1, true, ⟨1, 1⟩⟩], 1, 1,
    Option.none, .docling_driven, ⟨95, 100⟩,
    some [⟨0, 1⟩, ⟨0, 1⟩, ⟨10, 1⟩, ⟨10, 1⟩]⟩

/-- A rule-based table with confidence 0.7 and bbox `[5, 5, 15, 15]`,
which rectangle-overlaps `c4DoclingTable`. -/
def c4RuleTable : Table :=
  ⟨"t2".toList, "d".toList, 1, [⟨"b".toList, 0, 0, 1, 1, true, ⟨1, 1⟩⟩], 1, 1,
    Option.none, .rule_based, ⟨7, 10⟩,
    some [⟨5, 1⟩, ⟨5, 1⟩, ⟨15, 1⟩, ⟨15, 1⟩]⟩

/-- A single-column table of 3 rows (the spec's concrete rejection
example for the rule-based validator). -/
def singleColTable : Table :=
  ⟨"t".toList, "d".toList, 1,
    [⟨"a".toList, 0, 0, 1, 1, true, ⟨8, 10⟩⟩,
     ⟨"b".toList, 1, 0, 1, 1, false, ⟨8, 10⟩⟩,
     ⟨"c".toList, 2, 0, 1, 1, false, ⟨8, 10⟩⟩],
    3, 1, Option.none, .rule_based, ⟨8, 10⟩, Option.none⟩

/-- A gap-free, span-free 2-by-2 table with a caption and a flagged header
row, used as the round-trip witness. -/
def c7Table : Table :=
  ⟨"t".toList, "d".toList, 1,
    [⟨"Header 1".toList, 0, 0, 1, 1, true, ⟨1, 1⟩⟩,
     ⟨"Header 2".toList, 0, 1, 1, 1, true, ⟨1, 1⟩⟩,
     ⟨"Data 1".toList, 1, 0, 1, 1, false, ⟨1, 1⟩⟩,
     ⟨"Data 2".toList, 1, 1, 1, 1, false, ⟨1, 1⟩⟩],
    2, 2, some "Sample".toList, .docling_driven, ⟨1, 1⟩, Option.none⟩

/-- A table whose only cell is in bounds but whose `rowspan` footprint
extends past `num_rows`, used as the out-of-bounds-footprint witness. -/
def c10Table : Table :=
  ⟨"t".toList, "d".toList, 1,
    [⟨"a".toList, 0, 0, 2, 1, true, ⟨1, 1⟩⟩,
     ⟨"b".toList, 0, 1, 1, 1, false, ⟨1, 1⟩⟩],
    1, 2, Option.none, .docling_driven, ⟨9, 10⟩, Option.none⟩

/-- Two text blocks on distinct rows (tops 0 and 20), used as the
row-grouping witness. -/
def c8Blocks : List TextBlock :=
  [⟨.str "a".toList, .list [.int 0, .int 0, .int 10, .int 5], .none, .none⟩,
   ⟨.str "b".toList, .list [.int 0, .int 20, .int 10, .int 25], .none, .none⟩]

/-! Theorems. -/

/-- C1: the model-driven extractor's `_process_table_region`, run on the
explicit table region of the repository's own test fixture (whose computed
confidence is 0.975, above the 0.7 threshold), raises `AttributeError` at
the `TableDetectionMethod.AI_DRIVEN` lookup (the enum has no such member);
the exception is caught per region, so `extract_tables` returns zero
tables on the fixture for which the repository's own test asserts exactly
one `DOCLING_DRIVEN` table.  The code therefore never returns a `Table`
for any confident region, contradicting the claim (and the code's tests):
a code bug. -/
theorem ai_driven_tag_code_bug :
    aiProcessTableRegionE "test-doc".toList 1 aiSampleRegion aiSamplePage =
      .error .attributeError ∧
    aiExtractTables "test-doc".toList aiSampleDoclingOutput = .ok [] :=
  ⟨rfl, rfl⟩

/-- C2 counterexample: with one registered extractor whose `extract_tables`
raises and that extractor chosen as `preferred_method`, the service call
raises even though extractors are registered — refuting the claim that it
raises only when zero extractors are registered. -/
theorem service_preferred_raise_counterexample :
    c2Service.isEmptySvc = false ∧
    serviceExtractTables c2Service (some .docling_driven) = .error .typeError :=
  ⟨rfl, rfl⟩

/-- C3 counterexample: with an empty rule-based list, the code returns the
model-driven list unchanged, while the specified merge algorithm drops the
low-confidence table whose rounded bbox key was marked used by the
high-confidence one — so the merge does not compute the specified
algorithm when a list is empty. -/
theorem merge_empty_list_counterexample :
    mergeTableResults [c3HighTable, c3LowTable] [] = .ok [c3HighTable, c3LowTable] ∧
    mergeSpecAlgorithm [c3HighTable, c3LowTable] [] = .ok [c3HighTable] ∧
    (Except.ok [c3HighTable, c3LowTable] : Except PyErr (List Table)) ≠ .ok [c3HighTable] := by
  refine ⟨rfl, rfl, ?_⟩
  simp [c3HighTable, c3LowTable]

/-- C5 counterexample: a single malformed candidate row — two text blocks
whose consecutive horizontal gap is exactly zero — makes
`_is_potential_table_row` divide by zero during region finding, which is
outside the per-region isolation, and `extract_tables` raises. -/
theorem rule_extract_zero_gap_counterexample :
    ruleExtractTables "doc".toList zeroGapDoc = .error .zeroDivisionError := rfl

/-- C9 counterexample: a text element whose text begins with `"table "`
followed by further content but with no colon (`"Table 2 continued"`) is
not excluded — it appears in the clustering text blocks, because the code
additionally requires a `":"` before filtering an element out. -/
theorem text_block_filter_counterexample :
    getTextBlocks c9Layout = .ok [c9Block] := rfl

/-- C2 (amended): the service raises exactly when no extractor is
registered (a `ValueError`), or when a registered preferred method is
given and that extractor's `extract_tables` itself raises (the preferred
path has no isolation); on the default path every extractor exception is
isolated and a list is returned. -/
theorem service_raises_iff (svc : ServiceState) (pref : Option TableDetectionMethod) (e : PyErr) :
    serviceExtractTables svc pref = .error e ↔
      (svc.isEmptySvc = true ∧ e = .valueError) ∨
      (svc.isEmptySvc = false ∧ ∃ m ex, pref = some m ∧ svc.lookup m = some ex ∧
        ex.extractResult = .error e) := by
  unfold serviceExtractTables
  cases h : svc.isEmptySvc with
  | true => simp [h, eq_comm]
  | false =>
    simp only [h, Bool.false_eq_true, if_false]
    cases pref with
    | none => simp
    | some m =>
      cases hl : svc.lookup m with
      | none => simp [hl]
      | some ex =>
        cases hex : ex.extractResult with
        | error e' => simp [hl, hex, eq_comm]
        | ok ts => simp [hl, hex]


/-- Helper: the code's step-3 walk and the spec's step-3 walk are the same
function. -/
theorem mergeWalk_eq_specWalk (l : List Table) : ∀ merged used,
    mergeWalk merged used l = specWalk merged used l := by
  induction l with
  | nil => intro merged used; rfl
  | cons t rest ih =>
    intro merged used
    cases hb : t.bbox with
    | none => simpa only [mergeWalk, specWalk, hb] using ih _ _
    | some bb =>
      cases bb with
      | nil => simpa only [mergeWalk, specWalk, hb] using ih _ _
      | cons x xs =>
        simp only [mergeWalk, specWalk, hb]
        cases hk : bboxToKey (x :: xs) with
        | error err => simp [hk]
        | ok k =>
          simp only [hk]
          by_cases hc : used.contains k = true
          · simp [hc, ih]
          · simp only [hc, Bool.false_eq_true, if_false]
            cases ho : hasOverlap t merged with
            | error err => simp [ho]
            | ok b => cases b <;> simp [ho, ih]

/-- Helper: the code's step-1 fold computes the filter of high-confidence
tables together with their used keys, as the spec states it. -/
theorem mergeStep1_eq_spec (dts : List Table) : ∀ merged used,
    mergeStep1 merged used dts =
      match specUsedKeys (dts.filter (fun t => PyFloat.leB ⟨8, 10⟩ t.confidence_score)) with
      | .error e => .error e
      | .ok ks =>
        .ok (merged ++ dts.filter (fun t => PyFloat.leB ⟨8, 10⟩ t.confidence_score),
          used ++ ks) := by
  induction dts with
  | nil => intro merged used; simp [mergeStep1, specUsedKeys]
  | cons t rest ih =>
    intro merged used
    by_cases hp : PyFloat.leB ⟨8, 10⟩ t.confidence_score = true
    · have hf : (t :: rest).filter (fun t => PyFloat.leB ⟨8, 10⟩ t.confidence_score) =
          t :: rest.filter (fun t => PyFloat.leB ⟨8, 10⟩ t.confidence_score) := by
        simp [List.filter_cons, hp]
      cases hb : t.bbox with
      | none =>
        simp only [mergeStep1, hp, if_true, hb, hf, specUsedKeys, ih]
        cases specUsedKeys (rest.filter (fun t => PyFloat.leB ⟨8, 10⟩ t.confidence_score)) with
        | error err => rfl
        | ok ks => simp
      | some bb =>
        cases bb with
        | nil =>
          simp only [mergeStep1, hp, if_true, hb, hf, specUsedKeys, ih]
          cases specUsedKeys (rest.filter (fun t => PyFloat.leB ⟨8, 10⟩ t.confidence_score)) with
          | error err => rfl
          | ok ks => simp
        | cons x xs =>
          simp only [mergeStep1, hp, if_true, hb, hf, specUsedKeys]
          cases hk : bboxToKey (x :: xs) with
          | error err => simp [hk]
          | ok k =>
            simp only [hk, ih]
            cases specUsedKeys (rest.filter (fun t => PyFloat.leB ⟨8, 10⟩ t.confidence_score)) with
            | error err => rfl
            | ok ks => simp
    · have hf : (t :: rest).filter (fun t => PyFloat.leB ⟨8, 10⟩ t.confidence_score) =
          rest.filter (fun t => PyFloat.leB ⟨8, 10⟩ t.confidence_score) := by
        simp [List.filter_cons, hp]
      simp only [mergeStep1, hp, Bool.false_eq_true, if_false, hf]
      exact ih _ _

/-- C3 (amended): when either input list is empty the merge returns the
other list unchanged; whenever both are non-empty it returns exactly the
output of the specified merge algorithm (unconditional acceptance of
model-driven tables with confidence at least 0.8 with their keys marked
used, then the stable confidence-descending walk of the pooled remainder,
step-1 tables listed first). -/
theorem merge_matches_spec_algorithm_unless_empty (dts rts : List Table) :
    mergeTableResults dts rts =
      if rts.isEmpty then .ok dts
      else if dts.isEmpty then .ok rts
      else mergeSpecAlgorithm dts rts := by
  unfold mergeTableResults
  by_cases h1 : rts.isEmpty = true
  · simp [h1]
  · simp only [h1, Bool.false_eq_true, if_false]
    by_cases h2 : dts.isEmpty = true
    · simp [h2]
    · simp only [h2, Bool.false_eq_true, if_false]
      unfold mergeMain mergeSpecAlgorithm
      rw [mergeStep1_eq_spec]
      cases h3 : specUsedKeys (dts.filter (fun t => PyFloat.leB ⟨8, 10⟩ t.confidence_score)) with
      | error err => simp [h3]
      | ok ks => simp [h3, mergeWalk_eq_specWalk]

/-- C4: merging a model-driven table of confidence 0.95 with a bbox against
a rule-based table of confidence 0.7 whose bbox rectangle-overlaps it (the
code's axis-aligned test) yields exactly the model-driven table: the
model-driven table is accepted unconditionally in step 1, and the
rule-based candidate is suppressed either by the used bbox key or by the
overlap test. -/
theorem merge_prefers_high_confidence_docling
    (d r : Table) (dx1 dy1 dx2 dy2 rx1 ry1 rx2 ry2 : PyFloat)
    (hdm : d.detection_method = .docling_driven)
    (hrm : r.detection_method = .rule_based)
    (hdc : d.confidence_score = ⟨95, 100⟩)
    (hrc : r.confidence_score = ⟨7, 10⟩)
    (hdb : d.bbox = some [dx1, dy1, dx2, dy2])
    (hrb : r.bbox = some [rx1, ry1, rx2, ry2])
    (h1 : PyFloat.ltB rx1 dx2 = true) (h2 : PyFloat.ltB dx1 rx2 = true)
    (h3 : PyFloat.ltB ry1 dy2 = true) (h4 : PyFloat.ltB dy1 ry2 = true) :
    mergeTableResults [d] [r] = .ok [d] := by
  have i0 : ∀ (a b c dd : PyFloat), pyIdx [a, b, c, dd] 0 = .ok a := fun _ _ _ _ => rfl
  have i1 : ∀ (a b c dd : PyFloat), pyIdx [a, b, c, dd] 1 = .ok b := fun _ _ _ _ => rfl
  have i2 : ∀ (a b c dd : PyFloat), pyIdx [a, b, c, dd] 2 = .ok c := fun _ _ _ _ => rfl
  have i3 : ∀ (a b c dd : PyFloat), pyIdx [a, b, c, dd] 3 = .ok dd := fun _ _ _ _ => rfl
  have e1 : PyFloat.leB ⟨8, 10⟩ (⟨95, 100⟩ : PyFloat) = true := by decide
  have e2 : PyFloat.ltB (⟨95, 100⟩ : PyFloat) ⟨8, 10⟩ = false := by decide
  have hover : hasOverlap r [d] = .ok true := by
    simp only [hasOverlap, hrb, hasOverlapLoop, hdb, overlapPair, i0, i1, i2, i3,
      h1, h2, h3, h4, if_true]
  have hkd : bboxToKey [dx1, dy1, dx2, dy2] =
      .ok (dx1.truncF, dy1.truncF, dx2.truncF, dy2.truncF) := rfl
  have hkr : bboxToKey [rx1, ry1, rx2, ry2] =
      .ok (rx1.truncF, ry1.truncF, rx2.truncF, ry2.truncF) := rfl
  simp only [mergeTableResults, List.isEmpty_cons, Bool.false_eq_true, if_false,
    mergeMain, mergeStep1, hdc, e1, if_true, hdb, hkd, List.filter_cons, List.filter_nil,
    e2, List.nil_append, List.insertionSort, List.orderedInsert]
  simp only [mergeWalk, hrb, hkr]
  by_cases hc : [(dx1.truncF, dy1.truncF, dx2.truncF, dy2.truncF)].contains
      (rx1.truncF, ry1.truncF, rx2.truncF, ry2.truncF) = true
  · simp [hc, hover, mergeWalk]
  · simp [hc, hover, mergeWalk]

/-- Witness for C4 at concrete tables: bboxes `[0,0,10,10]` and
`[5,5,15,15]` overlap, so the merge keeps only the model-driven table. -/
theorem merge_prefers_high_confidence_docling_witness :
    mergeTableResults [c4DoclingTable] [c4RuleTable] = .ok [c4DoclingTable] :=
  merge_prefers_high_confidence_docling c4DoclingTable c4RuleTable
    ⟨0, 1⟩ ⟨0, 1⟩ ⟨10, 1⟩ ⟨10, 1⟩ ⟨5, 1⟩ ⟨5, 1⟩ ⟨15, 1⟩ ⟨15, 1⟩
    rfl rfl rfl rfl rfl rfl (by decide) (by decide) (by decide) (by decide)

/-- Helper: the rule-based page loop returns a list whenever region
finding succeeds on every page (region processing is internally
isolated and total). -/
theorem rulePagesLoop_ok (docId : Str) (pages : List PyVal) : ∀ n : Int,
    (∀ p ∈ pages, ∃ rs, ruleFindTableRegions p = .ok rs) →
    ∃ ts, rulePagesLoop docId n pages = .ok ts := by
  induction pages with
  | nil => exact fun n _ => ⟨[], rfl⟩
  | cons p rest ih =>
    intro n h
    obtain ⟨rs, hrs⟩ := h p (List.mem_cons_self p rest)
    obtain ⟨ts', hts'⟩ := ih (n + 1) (fun q hq => h q (List.mem_cons_of_mem p hq))
    exact ⟨List.filterMap (fun r => ruleProcessTableRegion docId n r p) rs ++ ts',
      by simp [rulePagesLoop, rulePageTables, hrs, hts']⟩

/-- C5 (amended): failures while processing an individual region are
isolated (caught, logged, skipped), so `extract_tables` returns a list
whenever region finding succeeds on every page; but a failure during
region finding itself — such as the zero-average-gap division in
`_is_potential_table_row` — propagates and the whole call raises. -/
theorem rule_extract_tables_ok_of_region_finding_ok
    (docId : Str) (pc pagesV : PyVal) (pages : List PyVal)
    (hp : pyGetD pc "pages".toList (.list []) = .ok pagesV)
    (hi : pyIter pagesV = .ok pages)
    (hreg : ∀ p ∈ pages, ∃ rs, ruleFindTableRegions p = .ok rs) :
    ∃ ts, ruleExtractTables docId pc = .ok ts := by
  obtain ⟨ts, hts⟩ := rulePagesLoop_ok docId pages 1 hreg
  refine ⟨ts, ?_⟩
  unfold ruleExtractTables
  rw [hp]
  simp only [hi, hts]

/-- Witness for C5 at a concrete one-page document with no layout
elements: region finding trivially succeeds, and extraction returns a
list. -/
theorem rule_extract_tables_ok_witness :
    ∃ ts, ruleExtractTables "doc".toList emptyElementsDoc = .ok ts :=
  rule_extract_tables_ok_of_region_finding_ok "doc".toList emptyElementsDoc
    (.list [.dict [("layout".toList, .dict [("elements".toList, .list [])])]])
    [.dict [("layout".toList, .dict [("elements".toList, .list [])])]]
    rfl rfl
    (by
      intro p hp
      rw [List.mem_singleton] at hp
      subst hp
      exact ⟨[], rfl⟩)

/-- Helper: the row-building loop equals greedy anchor chunking continued
from the current row and anchor. -/
theorem groupLoop_eq_anchorChunks (tol : PyFloat) :
    ∀ (l : List (PyFloat × β)) (a : PyFloat) (cur : List (PyFloat × β))
      (acc : List (List (PyFloat × β))),
    groupLoop tol a cur acc l =
      acc ++ ((cur ++ l.takeWhile (fun x => PyFloat.leB (PyFloat.absF (PyFloat.sub x.1 a)) tol)) ::
        anchorChunks tol (l.dropWhile (fun x => PyFloat.leB (PyFloat.absF (PyFloat.sub x.1 a)) tol))) := by
  intro l
  induction l with
  | nil => intro a cur acc; simp [groupLoop, anchorChunks]
  | cons b bs ih =>
    intro a cur acc
    by_cases hpred : PyFloat.leB (PyFloat.absF (PyFloat.sub b.1 a)) tol = true
    · simp only [groupLoop, hpred, if_true, List.takeWhile_cons, List.dropWhile_cons, ih]
      rw [List.append_assoc]
      rfl
    · simp only [groupLoop, hpred, Bool.false_eq_true, if_false, List.takeWhile_cons,
        List.dropWhile_cons, ih]
      rw [anchorChunks]
      simp

/-- C8: the rule-based row grouping equals greedy anchor chunking of the
stably y-sorted blocks with the fixed 5-unit tolerance: a block is merged
into the current row iff its top coordinate is within 5 units of the top
coordinate of the block that opened the row, and the comparison value is
never updated to a later block's coordinate or a running average. -/
theorem row_grouping_anchor (blocks : List TextBlock) (keyed : List (PyFloat × TextBlock))
    (hk : mapE (fun b => (blockY b).map (fun y => (y, b))) blocks = .ok keyed) :
    groupBlocksIntoRows blocks =
      .ok ((anchorChunks ⟨5, 1⟩ (List.insertionSort yOrder keyed)).map
        (fun r => r.map (fun p => p.2))) := by
  unfold groupBlocksIntoRows
  by_cases hb : blocks.isEmpty = true
  · have hnil : blocks = [] := List.isEmpty_iff.mp hb
    subst hnil
    have : keyed = [] := by
      simpa [mapE] using hk.symm
    subst this
    simp [anchorChunks]
  · simp only [hb, Bool.false_eq_true, if_false]
    rw [hk]
    show (match List.insertionSort yOrder keyed with
      | [] => (Except.ok [] : Except PyErr (List (List TextBlock)))
      | s0 :: rest =>
        .ok (List.map (fun r => List.map (fun p : PyFloat × TextBlock => p.2) r)
          (groupLoop ⟨5, 1⟩ s0.1 [s0] [] rest))) = _
    cases hs : List.insertionSort yOrder keyed with
    | nil => simp [anchorChunks]
    | cons s0 rest =>
      rw [anchorChunks]
      simp [groupLoop_eq_anchorChunks]

/-- Witness for C8 at two concrete blocks with tops 0 and 20. -/
theorem row_grouping_anchor_witness :
    groupBlocksIntoRows c8Blocks =
      .ok ((anchorChunks ⟨5, 1⟩ (List.insertionSort yOrder
        [(⟨0, 1⟩, ⟨.str "a".toList, .list [.int 0, .int 0, .int 10, .int 5], .none, .none⟩),
         (⟨20, 1⟩, ⟨.str "b".toList, .list [.int 0, .int 20, .int 10, .int 25], .none, .none⟩)])).map
        (fun r => r.map (fun p => p.2))) :=
  row_grouping_anchor c8Blocks _ rfl

/-- Helper: `candInfo` is the successful-case value of the per-element
loop body. -/
theorem candInfo_eq_ofElement (e : PyVal) :
    ∀ r, ruleTextBlockOfElement e = .ok r → candInfo e = r := by
  intro r h
  rw [ruleTextBlockOfElement] at h
  rw [candInfo]
  cases h1 : pyGetD e "type".toList .none with
  | error err => rw [h1] at h; simp at h
  | ok tv =>
    rw [h1] at h
    simp only [] at h ⊢
    by_cases h2 : pyEq tv (.str "text".toList) = true
    · rw [if_pos h2] at h ⊢
      cases h3 : pyGetD e "text".toList (.str []) with
      | error err => rw [h3] at h; simp at h
      | ok traw =>
        rw [h3] at h
        simp only [] at h ⊢
        cases h4 : pyAsStrE traw with
        | error err => rw [h4] at h; simp at h
        | ok str =>
          rw [h4] at h
          simp only [] at h ⊢
          by_cases h5 : ("table ".toList.isPrefixOf (pyLower (pyStrip str)) &&
              (pyLower (pyStrip str)).contains ':') = true
          · rw [if_pos h5] at h ⊢
            exact Except.ok.inj h
          · rw [if_neg h5] at h ⊢
            cases h6 : pyGetD e "bbox".toList (.list [.int 0, .int 0, .int 0, .int 0]) with
            | error err => rw [h6] at h; simp at h
            | ok bb =>
              rw [h6] at h
              simp only [] at h ⊢
              cases h7 : pyGetD e "font".toList .none with
              | error err => rw [h7] at h; simp at h
              | ok f =>
                rw [h7] at h
                simp only [] at h ⊢
                cases h8 : pyGetD e "font_size".toList .none with
                | error err => rw [h8] at h; simp at h
                | ok fs =>
                  rw [h8] at h
                  simp only [] at h ⊢
                  exact Except.ok.inj h
    · rw [if_neg h2] at h ⊢
      exact Except.ok.inj h

/-- Helper: when the filtering loop of `_get_text_blocks` succeeds, its
output is exactly the `candInfo` filter-map of the elements. -/
theorem ruleTextBlocksLoop_eq_filterMap (es : List PyVal) :
    ∀ bs, ruleTextBlocksLoop es = .ok bs → bs = es.filterMap candInfo := by
  induction es with
  | nil =>
    intro bs h
    simp [ruleTextBlocksLoop] at h
    simp [← h]
  | cons e rest ih =>
    intro bs h
    rw [ruleTextBlocksLoop] at h
    rw [List.filterMap_cons]
    cases he : ruleTextBlockOfElement e with
    | error err => simp [he] at h
    | ok r =>
      rw [candInfo_eq_ofElement e r he]
      simp only [he] at h
      cases r with
      | none => exact ih bs h
      | some b =>
        cases hr : ruleTextBlocksLoop rest with
        | error err => simp [hr] at h
        | ok bs2 =>
          simp only [hr] at h
          cases h
          simp [ih bs2 hr]

/-- Helper: a `mapE` whose per-element computation returns a pair whose
second component is the element itself returns the original list as the
second components. -/
theorem mapE_keyed_snd (g : α → Except PyErr (κ × α))
    (hg : ∀ a p, g a = .ok p → p.2 = a) (l : List α) :
    ∀ keyed : List (κ × α), mapE g l = .ok keyed → keyed.map Prod.snd = l := by
  induction l with
  | nil =>
    intro keyed h
    simp [mapE] at h
    simp [← h]
  | cons b rest ih =>
    intro keyed h
    rw [mapE] at h
    cases hgb : g b with
    | error err => simp [hgb] at h
    | ok p =>
      simp only [hgb] at h
      cases hm : mapE g rest with
      | error err => simp [hm] at h
      | ok ks =>
        simp only [hm] at h
        cases h
        simp [ih ks hm, hg b p hgb]

/-- C9 (amended): the text blocks used for row clustering are exactly (up
to the stable positional sort, hence as a permutation) the elements of
type `"text"` that are not filtered out; an element is filtered out iff its
stripped, lowercased text starts with `"table "` AND contains `":"` — the
prefix alone does not exclude it. -/
theorem text_block_filter_amended (layout ev : PyVal) (es : List PyVal)
    (blocks : List TextBlock)
    (h1 : pyGetD layout "elements".toList (.list []) = .ok ev)
    (h2 : pyIter ev = .ok es)
    (h3 : getTextBlocks layout = .ok blocks) :
    blocks.Perm (es.filterMap candInfo) := by
  unfold getTextBlocks ruleRawTextBlocks at h3
  rw [h1] at h3
  simp only [h2] at h3
  cases hr : ruleTextBlocksLoop es with
  | error err => simp [hr] at h3
  | ok bs =>
    simp only [hr] at h3
    cases hm : mapE (fun b => (blockYX b).map (fun k => (k, b))) bs with
    | error err => simp [hm] at h3
    | ok keyed =>
      simp only [hm] at h3
      cases h3
      have hg : ∀ (a : TextBlock) (p : (PyFloat × PyFloat) × TextBlock),
          (blockYX a).map (fun k => (k, a)) = .ok p → p.2 = a := by
        intro a p hp
        cases hb : blockYX a with
        | error err => simp [hb, Except.map] at hp
        | ok k =>
          simp [hb, Except.map] at hp
          simp [← hp]
      rw [← ruleTextBlocksLoop_eq_filterMap es bs hr,
        ← mapE_keyed_snd (fun b => (blockYX b).map (fun k => (k, b))) hg bs keyed hm]
      exact (List.perm_insertionSort yxOrder keyed).map Prod.snd

/-- Witness for C9 at the concrete layout holding only the
`"Table 2 continued"` element (which survives the filter). -/
theorem text_block_filter_amended_witness :
    ([c9Block] : List TextBlock).Perm ([c9Element].filterMap candInfo) :=
  text_block_filter_amended c9Layout (.list [c9Element]) [c9Element] [c9Block]
    rfl rfl rfl

/-- Helper: membership in the Python range model. -/
theorem mem_pyRange (a b i : Int) : i ∈ pyRange a b ↔ a ≤ i ∧ i < b := by
  unfold pyRange
  rw [List.mem_map]
  constructor
  · rintro ⟨j, hj, rfl⟩
    rw [List.mem_range] at hj
    omega
  · rintro ⟨h1, h2⟩
    refine ⟨(i - a).toNat, ?_, by omega⟩
    rw [List.mem_range]
    omega

/-- Helper: membership in a cell's occupied-position list. -/
theorem mem_cellPositions (cell : TableCell) (r c : Int) :
    (r, c) ∈ cellPositions cell ↔
      r ∈ pyRange cell.row (cell.row + cell.rowspan) ∧
      c ∈ pyRange cell.col (cell.col + cell.colspan) := by
  simp only [cellPositions, List.mem_flatten, List.mem_map]
  constructor
  · rintro ⟨sub, ⟨r', hr', rfl⟩, hsub⟩
    simp only [List.mem_map] at hsub
    obtain ⟨c', hc', heq⟩ := hsub
    cases heq
    exact ⟨hr', hc'⟩
  · rintro ⟨hr, hc⟩
    exact ⟨(pyRange cell.col (cell.col + cell.colspan)).map (fun cc => (r, cc)),
      ⟨r, hr, rfl⟩, by simp only [List.mem_map]; exact ⟨c, hc, rfl⟩⟩

/-- Helper: reading past the end of a list (with a non-negative index)
raises `IndexError`. -/
theorem pyIdx_err (l : List α) (i : Int) (h1 : 0 ≤ i) (h2 : (l.length : Int) ≤ i) :
    pyIdx l i = .error .indexError := by
  unfold pyIdx
  rw [dif_neg (by omega), dif_neg (by omega)]

/-- Helper: a successful `pyIdx` read returns a member of the list. -/
theorem pyIdx_ok_mem (l : List α) (i : Int) (a : α) (h : pyIdx l i = .ok a) : a ∈ l := by
  unfold pyIdx at h
  split at h
  · cases h
    exact List.get_mem _ _ _
  · split at h
    · cases h
      exact List.get_mem _ _ _
    · cases h

/-- Helper: a successful `pySetE` is a `List.set` at some position. -/
theorem pySetE_ok (l : List α) (i : Int) (a : α) (l' : List α)
    (h : pySetE l i a = .ok l') : ∃ j, l' = l.set j a := by
  unfold pySetE at h
  split at h
  · cases h
    exact ⟨i.toNat, rfl⟩
  · split at h
    · cases h
      exact ⟨(i + l.length).toNat, rfl⟩
    · cases h

/-- Helper: the marking loop over one cell's positions preserves the grid
dimensions. -/
theorem markPositions_dims (C : Nat) :
    ∀ (ps : List (Int × Int)) (g g2 : List (List Bool)),
    (∀ row ∈ g, row.length = C) → markPositions g ps = .ok (some g2) →
    g2.length = g.length ∧ (∀ row ∈ g2, row.length = C) := by
  intro ps
  induction ps with
  | nil =>
    intro g g2 hrows h
    rw [markPositions] at h
    cases h
    exact ⟨rfl, hrows⟩
  | cons q rest ih =>
    intro g g2 hrows h
    obtain ⟨r, c⟩ := q
    rw [markPositions] at h
    cases hg : pyIdx g r with
    | error err => rw [hg] at h; cases h
    | ok row =>
      rw [hg] at h
      simp only [] at h
      cases hocc : pyIdx row c with
      | error err => rw [hocc] at h; cases h
      | ok occ =>
        rw [hocc] at h
        simp only [] at h
        by_cases ho : occ = true
        · rw [if_pos ho] at h; cases h
        · rw [if_neg ho] at h
          cases hrow : pySetE row c true with
          | error err => rw [hrow] at h; cases h
          | ok row' =>
            rw [hrow] at h
            simp only [] at h
            cases hgrid : pySetE g r row' with
            | error err => rw [hgrid] at h; cases h
            | ok g1 =>
              rw [hgrid] at h
              simp only [] at h
              have hrow_len : row'.length = C := by
                obtain ⟨j, rfl⟩ := pySetE_ok row c true row' hrow
                rw [List.length_set]
                exact hrows row (pyIdx_ok_mem g r row hg)
              have hg1 : ∀ x ∈ g1, x.length = C := by
                obtain ⟨j, rfl⟩ := pySetE_ok g r row' g1 hgrid
                intro x hx
                rcases List.mem_or_eq_of_mem_set hx with hx' | hx'
                · exact hrows x hx'
                · rw [hx']
                  exact hrow_len
              have hg1_len : g1.length = g.length := by
                obtain ⟨j, rfl⟩ := pySetE_ok g r row' g1 hgrid
                exact List.length_set g j row'
              obtain ⟨hl, hr2⟩ := ih g1 g2 hg1 h
              exact ⟨hl.trans hg1_len, hr2⟩

/-- Helper: the marking loop cannot finish successfully when one of the
positions lies outside the grid (it raises `IndexError` or reports an
overlap first). -/
theorem markPositions_not_some (R C : Nat) :
    ∀ (ps : List (Int × Int)) (g : List (List Bool)),
    g.length = R → (∀ row ∈ g, row.length = C) →
    (∃ q ∈ ps, 0 ≤ q.1 ∧ 0 ≤ q.2 ∧ ((R : Int) ≤ q.1 ∨ (C : Int) ≤ q.2)) →
    ∀ g', markPositions g ps ≠ .ok (some g') := by
  intro ps
  induction ps with
  | nil =>
    rintro g _ _ ⟨q, hq, _⟩ g'
    cases hq
  | cons p rest ih =>
    rintro g hlen hrows ⟨q, hq, hq1, hq2, hbad⟩ g' h
    obtain ⟨r, c⟩ := p
    rw [markPositions] at h
    rcases List.mem_cons.mp hq with rfl | hqrest
    · rcases hbad with hbr | hbc
      · rw [pyIdx_err g r hq1 (by omega)] at h
        cases h
      · cases hg : pyIdx g r with
        | error err => rw [hg] at h; cases h
        | ok row =>
          rw [hg] at h
          simp only [] at h
          rw [pyIdx_err row c hq2
            (by rw [hrows row (pyIdx_ok_mem g r row hg)]; omega)] at h
          cases h
    · cases hg : pyIdx g r with
      | error err => rw [hg] at h; cases h
      | ok row =>
        rw [hg] at h
        simp only [] at h
        cases hocc : pyIdx row c with
        | error err => rw [hocc] at h; cases h
        | ok occ =>
          rw [hocc] at h
          simp only [] at h
          by_cases ho : occ = true
          · rw [if_pos ho] at h; cases h
          · rw [if_neg ho] at h
            cases hrow : pySetE row c true with
            | error err => rw [hrow] at h; cases h
            | ok row' =>
              rw [hrow] at h
              simp only [] at h
              cases hgrid : pySetE g r row' with
              | error err => rw [hgrid] at h; cases h
              | ok g1 =>
                rw [hgrid] at h
                simp only [] at h
                have hrow_len : row'.length = C := by
                  obtain ⟨j, rfl⟩ := pySetE_ok row c true row' hrow
                  rw [List.length_set]
                  exact hrows row (pyIdx_ok_mem g r row hg)
                have hg1rows : ∀ x ∈ g1, x.length = C := by
                  obtain ⟨j, rfl⟩ := pySetE_ok g r row' g1 hgrid
                  intro x hx
                  rcases List.mem_or_eq_of_mem_set hx with hx' | hx'
                  · exact hrows x hx'
                  · rw [hx']
                    exact hrow_len
                have hg1len : g1.length = R := by
                  obtain ⟨j, rfl⟩ := pySetE_ok g r row' g1 hgrid
                  rw [List.length_set]
                  exact hlen
                exact ih g1 hg1len hg1rows ⟨q, hqrest, hq1, hq2, hbad⟩ g' h

/-- Helper: the cell loop of `_verify_no_cell_overlap` cannot finish
successfully when some cell has an out-of-grid occupied position. -/
theorem markCells_not_some (R C : Nat) :
    ∀ (cells : List TableCell) (g : List (List Bool)),
    g.length = R → (∀ row ∈ g, row.length = C) →
    (∃ cell ∈ cells, ∃ q ∈ cellPositions cell,
      0 ≤ q.1 ∧ 0 ≤ q.2 ∧ ((R : Int) ≤ q.1 ∨ (C : Int) ≤ q.2)) →
    ∀ g', markCells g cells ≠ .ok (some g') := by
  intro cells
  induction cells with
  | nil =>
    rintro g _ _ ⟨cell, hcell, _⟩ g'
    cases hcell
  | cons cell rest ih =>
    rintro g hlen hrows ⟨badc, hbadc, q, hqpos, hq1, hq2, hbad⟩ g' h
    rw [markCells] at h
    rcases List.mem_cons.mp hbadc with rfl | hbrest
    · cases hmp : markPositions g (cellPositions badc) with
      | error err => rw [hmp] at h; cases h
      | ok o =>
        cases o with
        | none => rw [hmp] at h; simp only [] at h; cases h
        | some g2 =>
          exact markPositions_not_some R C (cellPositions badc) g hlen hrows
            ⟨q, hqpos, hq1, hq2, hbad⟩ g2 hmp
    · cases hmp : markPositions g (cellPositions cell) with
      | error err => rw [hmp] at h; cases h
      | ok o =>
        cases o with
        | none => rw [hmp] at h; simp only [] at h; cases h
        | some g2 =>
          rw [hmp] at h
          simp only [] at h
          obtain ⟨hl2, hr2⟩ := markPositions_dims C (cellPositions cell) g g2 hrows hmp
          exact ih g2 (hl2.trans hlen) hr2 ⟨badc, hbrest, q, hqpos, hq1, hq2, hbad⟩ g' h

/-- C10: the model-driven `validate_table` is a total boolean function (a
caught exception becomes `False`), and a table whose cells are individually
in bounds but whose rowspan/colspan footprint leaves the grid is rejected:
the footprint walk of `_verify_no_cell_overlap` either reports an overlap
first or raises `IndexError`, which `validate_table` catches and turns
into `False`. -/
theorem ai_validate_rejects_oob_footprint (t : Table)
    (hin : ∀ c ∈ t.cells, 0 ≤ c.row ∧ c.row < t.num_rows ∧ 0 ≤ c.col ∧ c.col < t.num_cols)
    (hoob : ∃ c ∈ t.cells, 1 ≤ c.rowspan ∧ 1 ≤ c.colspan ∧
      (t.num_rows < c.row + c.rowspan ∨ t.num_cols < c.col + c.colspan)) :
    aiValidateTable t = false := by
  unfold aiValidateTable
  by_cases hemp : t.cells.isEmpty = true
  · rw [if_pos hemp]
  · rw [if_neg hemp]
    suffices hv : aiValidateBody t ≠ .ok true by
      cases hb : aiValidateBody t with
      | error e => rfl
      | ok b =>
        cases b with
        | true => exact absurd hb hv
        | false => rfl
    unfold aiValidateBody
    by_cases h1 : (decide (t.num_rows < 1) || decide (t.num_cols < 2)) = true
    · rw [if_pos h1]
      simp
    · rw [if_neg h1]
      simp only [Bool.or_eq_true, decide_eq_true_eq, not_or] at h1
      obtain ⟨hr1, hc2⟩ := h1
      split
      · simp
      · split
        · simp
        · have hverify : verifyNoCellOverlap t ≠ .ok true := by
            unfold verifyNoCellOverlap
            intro hcontra
            cases hmc : markCells (mkGrid t.num_rows t.num_cols) t.cells with
            | error e => rw [hmc] at hcontra; cases hcontra
            | ok o =>
              cases o with
              | none => rw [hmc] at hcontra; simp at hcontra
              | some g2 =>
                refine markCells_not_some t.num_rows.toNat t.num_cols.toNat t.cells
                  (mkGrid t.num_rows t.num_cols) (by simp [mkGrid]) ?_ ?_ g2 hmc
                · intro row hrow
                  simp only [mkGrid] at hrow
                  rw [List.eq_of_mem_replicate hrow]
                  simp
                · obtain ⟨c, hc, hrs, hcs, hbig⟩ := hoob
                  obtain ⟨hr0, hrlt, hc0, hclt⟩ := hin c hc
                  rcases hbig with hbr | hbc
                  · refine ⟨c, hc, (c.row + c.rowspan - 1, c.col), ?_, by omega, by omega, ?_⟩
                    · rw [show ((c.row + c.rowspan - 1, c.col) : Int × Int) =
                        (c.row + c.rowspan - 1, c.col) from rfl, mem_cellPositions]
                      constructor <;> rw [mem_pyRange] <;> omega
                    · left
                      omega
                  · refine ⟨c, hc, (c.row, c.col + c.colspan - 1), ?_, by omega, by omega, ?_⟩
                    · rw [mem_cellPositions]
                      constructor <;> rw [mem_pyRange] <;> omega
                    · right
                      omega
          intro hcontra
          cases hvv : verifyNoCellOverlap t with
          | error e => rw [hvv] at hcontra; cases hcontra
          | ok b =>
            rw [hvv] at hcontra
            simp only [] at hcontra
            cases hcontra
            exact hverify hvv

/-- Witness for C10 at a concrete table: one 2-by-2 grid head cell with
`rowspan = 2` in a table with `num_rows = 1`. -/
theorem ai_validate_rejects_oob_footprint_witness :
    aiValidateTable c10Table = false :=
  ai_validate_rejects_oob_footprint c10Table (by decide) (by decide)

/-- Helper: the `rows` dict built by the rule-based `validate_table` maps
each present key to as many cells as the cell list holds for that row, and
holds a key iff some cell has that row. -/
theorem groupCellRows_foldl_spec :
    ∀ (cells : List TableCell) (acc : List (Int × List TableCell))
      (processed : List TableCell),
    (∀ kv ∈ acc, kv.2.length = processed.countP (fun c => c.row == kv.1)) →
    (∀ k : Int, (∃ kv ∈ acc, kv.1 = k) ↔ ∃ c ∈ processed, c.row = k) →
    (∀ kv ∈ cells.foldl (fun acc c =>
        if acc.any (fun kv => kv.1 = c.row) then
          acc.map (fun kv => if kv.1 = c.row then (kv.1, kv.2 ++ [c]) else kv)
        else acc ++ [(c.row, [c])]) acc,
      kv.2.length = (processed ++ cells).countP (fun c => c.row == kv.1)) ∧
    (∀ k : Int, (∃ kv ∈ cells.foldl (fun acc c =>
        if acc.any (fun kv => kv.1 = c.row) then
          acc.map (fun kv => if kv.1 = c.row then (kv.1, kv.2 ++ [c]) else kv)
        else acc ++ [(c.row, [c])]) acc, kv.1 = k) ↔
      ∃ c ∈ processed ++ cells, c.row = k) := by
  intro cells
  induction cells with
  | nil =>
    intro acc processed hlen hkey
    simp only [List.foldl_nil, List.append_nil]
    exact ⟨hlen, hkey⟩
  | cons c rest ih =>
    intro acc processed hlen hkey
    rw [List.foldl_cons]
    by_cases hany : acc.any (fun kv => kv.1 = c.row) = true
    · rw [if_pos hany]
      have hlen' : ∀ kv ∈ acc.map (fun kv => if kv.1 = c.row then (kv.1, kv.2 ++ [c]) else kv),
          kv.2.length = (processed ++ [c]).countP (fun x => x.row == kv.1) := by
        intro kv' hkv'
        obtain ⟨kv, hkv, hkv'eq⟩ := List.mem_map.mp hkv'
        rw [List.countP_append]
        by_cases heq : kv.1 = c.row
        · rw [if_pos heq] at hkv'eq
          subst hkv'eq
          simp only [List.length_append, List.length_singleton, hlen kv hkv,
            List.countP_cons, List.countP_nil]
          have : (c.row == kv.1) = true := by
            rw [beq_iff_eq, heq]
          rw [this]
          rfl
        · rw [if_neg heq] at hkv'eq
          subst hkv'eq
          simp only [hlen kv hkv, List.countP_cons, List.countP_nil]
          have : (c.row == kv.1) = false := by
            rw [beq_eq_false_iff_ne]
            exact fun hc => heq hc.symm
          rw [this]
          simp
      have hkey' : ∀ k : Int,
          (∃ kv ∈ acc.map (fun kv => if kv.1 = c.row then (kv.1, kv.2 ++ [c]) else kv),
            kv.1 = k) ↔ ∃ x ∈ processed ++ [c], x.row = k := by
        intro k
        constructor
        · rintro ⟨kv', hkv', hk⟩
          obtain ⟨kv, hkv, hkv'eq⟩ := List.mem_map.mp hkv'
          have hfst : kv'.1 = kv.1 := by
            by_cases heq : kv.1 = c.row
            · rw [if_pos heq] at hkv'eq
              rw [← hkv'eq]
            · rw [if_neg heq] at hkv'eq
              rw [← hkv'eq]
          obtain ⟨x, hx, hxr⟩ := (hkey k).mp ⟨kv, hkv, by rw [← hfst, hk]⟩
          exact ⟨x, List.mem_append_left _ hx, hxr⟩
        · rintro ⟨x, hx, hxr⟩
          rcases List.mem_append.mp hx with hx' | hx'
          · obtain ⟨kv, hkv, hk⟩ := (hkey k).mpr ⟨x, hx', hxr⟩
            refine ⟨if kv.1 = c.row then (kv.1, kv.2 ++ [c]) else kv,
              List.mem_map_of_mem _ hkv, ?_⟩
            by_cases heq : kv.1 = c.row
            · rw [if_pos heq]
              exact hk
            · rw [if_neg heq]
              exact hk
          · rw [List.mem_singleton] at hx'
            obtain ⟨kv, hkv, hk⟩ := List.any_eq_true.mp hany
            simp only [decide_eq_true_eq] at hk
            refine ⟨(kv.1, kv.2 ++ [c]), ?_, by rw [hk, ← hx']; exact hxr⟩
            have h2 : (kv.1, kv.2 ++ [c]) = if kv.1 = c.row then (kv.1, kv.2 ++ [c]) else kv := by
              rw [if_pos hk]
            rw [h2]
            exact List.mem_map_of_mem _ hkv
      obtain ⟨r1, r2⟩ := ih _ (processed ++ [c]) hlen' hkey'
      rw [List.append_cons processed c rest]
      exact ⟨r1, r2⟩
    · rw [if_neg hany]
      have hnotin : ∀ kv ∈ acc, kv.1 ≠ c.row := by
        intro kv hkv heq
        exact hany (List.any_eq_true.mpr ⟨kv, hkv, by simpa using heq⟩)
      have hnone : processed.countP (fun x => x.row == c.row) = 0 := by
        rw [List.countP_eq_zero]
        intro x hx hxr
        rw [beq_iff_eq] at hxr
        obtain ⟨kv, hkv, hk⟩ := (hkey c.row).mpr ⟨x, hx, hxr⟩
        exact hnotin kv hkv hk
      have hlen' : ∀ kv ∈ acc ++ [(c.row, [c])],
          kv.2.length = (processed ++ [c]).countP (fun x => x.row == kv.1) := by
        intro kv hkv
        rw [List.countP_append]
        rcases List.mem_append.mp hkv with hkv' | hkv'
        · simp only [hlen kv hkv', List.countP_cons, List.countP_nil]
          have : (c.row == kv.1) = false := by
            rw [beq_eq_false_iff_ne]
            exact fun hc => hnotin kv hkv' hc.symm
          rw [this]
          simp
        · rw [List.mem_singleton] at hkv'
          subst hkv'
          simp only [List.length_singleton, List.countP_cons, List.countP_nil, hnone]
          simp
      have hkey' : ∀ k : Int, (∃ kv ∈ acc ++ [(c.row, [c])], kv.1 = k) ↔
          ∃ x ∈ processed ++ [c], x.row = k := by
        intro k
        constructor
        · rintro ⟨kv, hkv, hk⟩
          rcases List.mem_append.mp hkv with hkv' | hkv'
          · obtain ⟨x, hx, hxr⟩ := (hkey k).mp ⟨kv, hkv', hk⟩
            exact ⟨x, List.mem_append_left _ hx, hxr⟩
          · rw [List.mem_singleton] at hkv'
            subst hkv'
            exact ⟨c, List.mem_append_right _ (List.mem_singleton_self c), hk⟩
        · rintro ⟨x, hx, hxr⟩
          rcases List.mem_append.mp hx with hx' | hx'
          · obtain ⟨kv, hkv, hk⟩ := (hkey k).mpr ⟨x, hx', hxr⟩
            exact ⟨kv, List.mem_append_left _ hkv, hk⟩
          · rw [List.mem_singleton] at hx'
            exact ⟨(c.row, [c]), List.mem_append_right _ (List.mem_singleton_self _),
              by rw [← hx']; exact hxr⟩
      obtain ⟨r1, r2⟩ := ih _ (processed ++ [c]) hlen' hkey'
      rw [List.append_cons processed c rest]
      exact ⟨r1, r2⟩

/-- Helper: the invariants of `groupCellRows` specialised to the empty
starting state. -/
theorem groupCellRows_spec (cells : List TableCell) :
    (∀ kv ∈ groupCellRows cells, kv.2.length = cells.countP (fun c => c.row == kv.1)) ∧
    (∀ k : Int, (∃ kv ∈ groupCellRows cells, kv.1 = k) ↔ ∃ c ∈ cells, c.row = k) := by
  have h := groupCellRows_foldl_spec cells [] []
    (by intro kv hkv; cases hkv)
    (by
      intro k
      constructor
      · rintro ⟨kv, hkv, -⟩
        cases hkv
      · rintro ⟨c, hc, -⟩
        cases hc)
  rw [List.nil_append] at h
  exact h

/-- Helper: the 50-percent content check of the rule-based
`validate_table`, written on the exact-fraction model, holds iff strictly
fewer than half the cells are non-empty. -/
theorem ltB_half_iff (ne n : Nat) :
    PyFloat.ltB (PyFloat.div (PyFloat.ofInt ne) (PyFloat.ofInt n)) ⟨1, 2⟩ = true ↔
      2 * (ne : Int) < (n : Int) := by
  simp only [PyFloat.ltB, PyFloat.div, PyFloat.ofInt]
  rw [if_neg (by omega : ¬((n : Int) < 0))]
  simp only [decide_eq_true_eq]
  omega

/-- C6: the rule-based `validate_table` accepts a table iff it has at
least 2 rows and at least 2 columns, every cell's (row, col) lies within
bounds, at least half of the cells have non-empty text after trimming,
and every row index in 0..num_rows-1 is present with exactly num_cols
cells; in particular the single-column table of 3 rows is rejected. -/
theorem rule_validate_table_iff :
    (∀ t : Table, ruleValidateTable t = true ↔
      (2 ≤ t.num_rows ∧ 2 ≤ t.num_cols ∧
       (∀ c ∈ t.cells, 0 ≤ c.row ∧ c.row < t.num_rows ∧ 0 ≤ c.col ∧ c.col < t.num_cols) ∧
       t.cells.length ≤ 2 * t.cells.countP (fun c => !(pyStrip c.text).isEmpty) ∧
       (∀ i ∈ pyRange 0 t.num_rows,
         (t.cells.countP (fun c => c.row == i) : Int) = t.num_cols))) ∧
    ruleValidateTable singleColTable = false := by
  refine ⟨fun t => ?_, by rfl⟩
  obtain ⟨hgl, hgk⟩ := groupCellRows_spec t.cells
  rw [ruleValidateTable]
  by_cases hemp : t.cells.isEmpty = true
  · rw [if_pos hemp]
    have hnil : t.cells = [] := by
      cases h : t.cells with
      | nil => rfl
      | cons a l =>
        rw [h] at hemp
        simp at hemp
    constructor
    · intro h
      simp at h
    · rintro ⟨hr, hc, -, -, hcomp⟩
      have h0 := hcomp 0 ((mem_pyRange 0 t.num_rows 0).mpr ⟨le_refl 0, by omega⟩)
      rw [hnil] at h0
      simp only [List.countP_nil, Nat.cast_zero] at h0
      exact absurd h0 (by omega)
  · rw [if_neg hemp]
    by_cases h2 : (decide (t.num_rows < 2) || decide (t.num_cols < 2)) = true
    · rw [if_pos h2]
      simp only [Bool.or_eq_true, decide_eq_true_eq] at h2
      constructor
      · intro h
        simp at h
      · rintro ⟨hr, hc, -, -, -⟩
        exact absurd h2 (by omega)
    · rw [if_neg h2]
      simp only [Bool.or_eq_true, decide_eq_true_eq] at h2
      push_neg at h2
      by_cases hb : (t.cells.any (fun c =>
          decide (c.row < 0) || decide (t.num_rows ≤ c.row) ||
          decide (c.col < 0) || decide (t.num_cols ≤ c.col))) = true
      · rw [if_pos hb]
        simp only [List.any_eq_true, Bool.or_eq_true, decide_eq_true_eq] at hb
        obtain ⟨c, hcmem, hcviol⟩ := hb
        constructor
        · intro h
          simp at h
        · rintro ⟨-, -, hbnd, -, -⟩
          have hbc := hbnd c hcmem
          exact absurd hcviol (by omega)
      · rw [if_neg hb]
        simp only [List.any_eq_true, Bool.or_eq_true, decide_eq_true_eq] at hb
        push_neg at hb
        have hbounds : ∀ c ∈ t.cells, 0 ≤ c.row ∧ c.row < t.num_rows ∧
            0 ≤ c.col ∧ c.col < t.num_cols := by
          intro c hc
          have h := hb c hc
          exact ⟨by omega, by omega, by omega, by omega⟩
        by_cases h5 : PyFloat.ltB (PyFloat.div
            (PyFloat.ofInt (t.cells.countP (fun c => !(pyStrip c.text).isEmpty)))
            (PyFloat.ofInt t.cells.length)) ⟨1, 2⟩ = true
        · rw [if_pos h5]
          rw [ltB_half_iff] at h5
          constructor
          · intro h
            simp at h
          · rintro ⟨-, -, -, h50, -⟩
            exact absurd h5 (by omega)
        · rw [if_neg h5]
          rw [ltB_half_iff] at h5
          have h50 : t.cells.length ≤
              2 * t.cells.countP (fun c => !(pyStrip c.text).isEmpty) := by omega
          simp only []
          by_cases hall : ((groupCellRows t.cells).all fun kv =>
              decide ((kv.2.length : Int) = t.num_cols)) = true
          · rw [hall]
            rw [if_neg (by decide : ¬((!true) = true))]
            simp only [Bool.and_eq_true, decide_eq_true_eq]
            have halls : ∀ kv ∈ groupCellRows t.cells, (kv.2.length : Int) = t.num_cols := by
              intro kv hkv
              have h := List.all_eq_true.mp hall kv hkv
              simpa using h
            constructor
            · rintro ⟨hsub, hsup⟩
              refine ⟨by omega, by omega, hbounds, h50, ?_⟩
              intro i hi
              obtain ⟨kv, hkv, hk⟩ := List.mem_map.mp (hsup i hi)
              have hk' : kv.1 = i := hk
              have hl := hgl kv hkv
              rw [hk'] at hl
              rw [← hl]
              exact halls kv hkv
            · rintro ⟨hr, hc, -, -, hcomp⟩
              constructor
              · intro k hkmem
                obtain ⟨kv, hkv, hk⟩ := List.mem_map.mp hkmem
                have hk' : kv.1 = k := hk
                obtain ⟨c, hcm, hcr⟩ := (hgk k).mp ⟨kv, hkv, hk'⟩
                have hbc := hbounds c hcm
                rw [mem_pyRange]
                omega
              · intro i hi
                have hcnt := hcomp i hi
                have hpos : 0 < t.cells.countP (fun c => c.row == i) := by omega
                obtain ⟨c, hcm, hcp⟩ := List.countP_pos_iff.mp hpos
                have hcr : c.row = i := by simpa using hcp
                obtain ⟨kv, hkv, hk⟩ := (hgk i).mpr ⟨c, hcm, hcr⟩
                exact List.mem_map.mpr ⟨kv, hkv, hk⟩
          · have hallf : ((groupCellRows t.cells).all fun kv =>
                decide ((kv.2.length : Int) = t.num_cols)) = false := by
              cases hx : (groupCellRows t.cells).all fun kv =>
                  decide ((kv.2.length : Int) = t.num_cols)
              · rfl
              · exact absurd hx hall
            rw [hallf]
            rw [if_pos (by decide : (!false) = true)]
            constructor
            · intro h
              simp at h
            · rintro ⟨hr, hc, -, -, hcomp⟩
              have hbad : ∃ kv ∈ groupCellRows t.cells, (kv.2.length : Int) ≠ t.num_cols := by
                by_contra hno
                push_neg at hno
                refine hall (List.all_eq_true.mpr (fun kv hkv => ?_))
                simp only [decide_eq_true_eq]
                exact hno kv hkv
              obtain ⟨kv, hkv, hne2⟩ := hbad
              obtain ⟨c, hcm, hcr⟩ := (hgk kv.1).mp ⟨kv, hkv, rfl⟩
              have hbc := hbounds c hcm
              have hkrange : kv.1 ∈ pyRange 0 t.num_rows := by
                rw [mem_pyRange]
                omega
              have hcnt := hcomp kv.1 hkrange
              have hl := hgl kv hkv
              refine absurd hcnt ?_
              rw [← hl]
              exact hne2

/-- The characterisation applied at both poles: the complete 2-by-2 table
passes the rule-based validator, and the single-column table fails. -/
theorem rule_validate_table_iff_witness :
    ruleValidateTable c7Table = true ∧ ruleValidateTable singleColTable = false :=
  ⟨(rule_validate_table_iff.1 c7Table).mpr (by decide), rule_validate_table_iff.2⟩

/-- Helper: Python's `str.split` never returns an empty list. -/
theorem splitOnChar_ne_nil (sep : Char) (s : Str) : splitOnChar sep s ≠ [] := by
  cases s with
  | nil =>
    rw [splitOnChar]
    exact List.cons_ne_nil _ _
  | cons c cs =>
    rw [splitOnChar]
    by_cases h : c = sep
    · rw [if_pos h]
      exact List.cons_ne_nil _ _
    · rw [if_neg h]
      cases splitOnChar sep cs with
      | nil => exact List.cons_ne_nil _ _
      | cons a t => exact List.cons_ne_nil _ _

/-- Helper: splitting a string that does not contain the separator yields
the one-element list holding the string itself. -/
theorem splitOnChar_not_mem (sep : Char) :
    ∀ s : Str, sep ∉ s → splitOnChar sep s = [s] := by
  intro s
  induction s with
  | nil =>
    intro h
    rw [splitOnChar]
  | cons c cs ih =>
    intro h
    rw [splitOnChar]
    rw [if_neg (fun hc => h (by rw [← hc]; exact List.mem_cons_self c cs))]
    rw [ih (fun hm => h (List.mem_cons_of_mem c hm))]

/-- Helper: splitting the concatenation of a separator-free prefix, the
separator, and a suffix yields the prefix followed by the split of the
suffix. -/
theorem splitOnChar_append_sep (sep : Char) :
    ∀ (pre suf : Str), sep ∉ pre →
      splitOnChar sep (pre ++ sep :: suf) = pre :: splitOnChar sep suf := by
  intro pre
  induction pre with
  | nil =>
    intro suf h
    rw [List.nil_append, splitOnChar, if_pos rfl]
  | cons c cs ih =>
    intro suf h
    rw [List.cons_append, splitOnChar]
    rw [if_neg (fun hc => h (by rw [← hc]; exact List.mem_cons_self c cs))]
    rw [ih suf (fun hm => h (List.mem_cons_of_mem c hm))]

/-- Helper: `intercalate` over at least two chunks peels off the first
chunk and one separator. -/
theorem intercalate_cons2 (s x y : Str) (l : List Str) :
    List.intercalate s (x :: y :: l) = x ++ s ++ List.intercalate s (y :: l) := by
  simp [List.intercalate, List.intersperse_cons_cons]

/-- Helper: splitting the newline-join of separator-free lines recovers
the lines. -/
theorem splitOnChar_intercalate (sep : Char) :
    ∀ l : List Str, l ≠ [] → (∀ x ∈ l, sep ∉ x) →
      splitOnChar sep (List.intercalate [sep] l) = l := by
  intro l
  induction l with
  | nil => intro h; exact absurd rfl h
  | cons x xs ih =>
    intro _ hfree
    cases xs with
    | nil =>
      have : List.intercalate [sep] [x] = x := by
        simp [List.intercalate]
      rw [this]
      exact splitOnChar_not_mem sep x (hfree x (List.mem_singleton_self x))
    | cons y rest =>
      rw [intercalate_cons2]
      have hx : sep ∉ x := hfree x (List.mem_cons_self _ _)
      have hstep : x ++ [sep] ++ List.intercalate [sep] (y :: rest) =
          x ++ sep :: List.intercalate [sep] (y :: rest) := by
        rw [List.append_assoc]
        rfl
      rw [hstep, splitOnChar_append_sep sep x _ hx]
      rw [ih (List.cons_ne_nil y rest) (fun z hz => hfree z (List.mem_cons_of_mem x hz))]

/-- Helper: a character of an `intercalate` comes from the separator or
from one of the chunks. -/
theorem mem_intercalate_cases (s : Str) (a : Char) :
    ∀ l : List Str, a ∈ List.intercalate s l → a ∈ s ∨ ∃ x ∈ l, a ∈ x := by
  intro l
  induction l with
  | nil =>
    intro h
    rw [show List.intercalate s [] = [] by simp [List.intercalate]] at h
    cases h
  | cons x xs ih =>
    intro h
    cases xs with
    | nil =>
      rw [show List.intercalate s [x] = x by simp [List.intercalate]] at h
      exact Or.inr ⟨x, List.mem_singleton_self x, h⟩
    | cons y rest =>
      rw [intercalate_cons2] at h
      rcases List.mem_append.mp h with h1 | h2
      · rcases List.mem_append.mp h1 with h3 | h4
        · exact Or.inr ⟨x, List.mem_cons_self _ _, h3⟩
        · exact Or.inl h4
      · rcases ih h2 with h5 | ⟨z, hz, ha⟩
        · exact Or.inl h5
        · exact Or.inr ⟨z, List.mem_cons_of_mem x hz, ha⟩

/-- Helper: a list holding two distinct members has at least two
elements. -/
theorem two_mem_length (l : List α) (a b : α) (ha : a ∈ l) (hb : b ∈ l)
    (hne : a ≠ b) : 2 ≤ l.length := by
  match l with
  | [] => cases ha
  | [x] =>
    rw [List.mem_singleton] at ha hb
    exact absurd (ha.trans hb.symm) hne
  | x :: y :: rest =>
    simp only [List.length_cons]
    omega

/-- Helper: the fill loop of `to_dict_format` succeeds on a grid of
`C`-wide rows when every cell is in bounds, preserves the dimensions, and
leaves each position holding the text of the last cell written there (the
first match in reverse cell order), or its old content if no cell targets
it. -/
theorem fillGrid_ok (C : Nat) :
    ∀ (cells : List TableCell) (g : List (List Str)),
    (∀ row ∈ g, row.length = C) →
    (∀ cl ∈ cells, 0 ≤ cl.row ∧ cl.row < (g.length : Int) ∧
      0 ≤ cl.col ∧ cl.col < (C : Int)) →
    ∃ g', fillGrid g cells = .ok g' ∧ g'.length = g.length ∧
      (∀ row ∈ g', row.length = C) ∧
      (∀ r c : Nat,
        gridEntry g' r c =
          match cells.reverse.find? (fun cl =>
              cl.row == (r : Int) && cl.col == (c : Int)) with
          | some cl => some cl.text
          | Option.none => gridEntry g r c) := by
  intro cells
  induction cells with
  | nil =>
    intro g hd _
    refine ⟨g, rfl, rfl, hd, ?_⟩
    intro r c
    rw [List.reverse_nil]
    rfl
  | cons cl cs ih =>
    intro g hd hb
    obtain ⟨h0r, h1r, h0c, h1c⟩ := hb cl (List.mem_cons_self _ _)
    have hrn : cl.row.toNat < g.length := by omega
    have hrowlen : (g.get ⟨cl.row.toNat, hrn⟩).length = C := hd _ (List.get_mem _ _ _)
    have hcn : cl.col.toNat < (g.get ⟨cl.row.toNat, hrn⟩).length := by omega
    have hidx : pyIdx g cl.row = .ok (g.get ⟨cl.row.toNat, hrn⟩) := by
      unfold pyIdx
      rw [dif_pos ⟨h0r, hrn⟩]
    have hset1 : pySetE (g.get ⟨cl.row.toNat, hrn⟩) cl.col cl.text =
        .ok ((g.get ⟨cl.row.toNat, hrn⟩).set cl.col.toNat cl.text) := by
      unfold pySetE
      rw [if_pos ⟨h0c, hcn⟩]
    have hset2 : pySetE g cl.row ((g.get ⟨cl.row.toNat, hrn⟩).set cl.col.toNat cl.text) =
        .ok (g.set cl.row.toNat ((g.get ⟨cl.row.toNat, hrn⟩).set cl.col.toNat cl.text)) := by
      unfold pySetE
      rw [if_pos ⟨h0r, hrn⟩]
    have hd1 : ∀ row ∈ g.set cl.row.toNat
        ((g.get ⟨cl.row.toNat, hrn⟩).set cl.col.toNat cl.text), row.length = C := by
      intro row hrow
      rcases List.mem_or_eq_of_mem_set hrow with h | h
      · exact hd row h
      · rw [h, List.length_set]
        exact hrowlen
    have hb1 : ∀ cl2 ∈ cs, 0 ≤ cl2.row ∧
        cl2.row < ((g.set cl.row.toNat
          ((g.get ⟨cl.row.toNat, hrn⟩).set cl.col.toNat cl.text)).length : Int) ∧
        0 ≤ cl2.col ∧ cl2.col < (C : Int) := by
      intro cl2 hcl2
      rw [List.length_set]
      exact hb cl2 (List.mem_cons_of_mem cl hcl2)
    obtain ⟨g', hfill, hlen, hrows, hent⟩ := ih _ hd1 hb1
    refine ⟨g', ?_, ?_, hrows, ?_⟩
    · rw [fillGrid, hidx]
      simp only []
      rw [hset1]
      simp only []
      rw [hset2]
      exact hfill
    · rw [hlen, List.length_set]
    · intro r c
      rw [hent r c, List.reverse_cons, List.find?_append]
      cases hf : (cs.reverse.find? (fun cl =>
          cl.row == (r : Int) && cl.col == (c : Int))) with
      | some cl2 =>
        simp only [Option.or_some]
      | none =>
        simp only [Option.none_or, List.find?_singleton]
        by_cases hp : (cl.row == (r : Int) && cl.col == (c : Int)) = true
        · rw [if_pos hp]
          simp only []
          simp only [Bool.and_eq_true, beq_iff_eq] at hp
          obtain ⟨hpr, hpc⟩ := hp
          have hr' : r = cl.row.toNat := by omega
          have hc' : c = cl.col.toNat := by omega
          subst hr' hc'
          rw [gridEntry, List.getElem?_set_self hrn]
          rw [Option.some_bind]
          rw [List.getElem?_set_self hcn]
        · rw [if_neg hp]
          simp only []
          simp only [Bool.and_eq_true, beq_iff_eq] at hp
          rw [gridEntry, gridEntry]
          by_cases hrr : cl.row.toNat = r
          · have hcc : cl.col.toNat ≠ c := by omega
            subst hrr
            rw [List.getElem?_set_self hrn]
            rw [List.getElem?_eq_getElem hrn]
            rw [Option.some_bind, Option.some_bind]
            rw [List.getElem?_set_ne hcc]
            rfl
          · rw [List.getElem?_set_ne hrr]

/-- Helper: the markdown row loop over a stretch of indices that misses
the header row emits exactly one pipe line per row. -/
theorem mdRowLinesFrom_no_header :
    ∀ (g : List (List Str)) (i hr : Int),
      (∀ j : Int, i ≤ j → j < i + g.length → j ≠ hr) →
      mdRowLinesFrom i hr g = g.map mkRowLine := by
  intro g
  induction g with
  | nil =>
    intro i hr _
    rw [mdRowLinesFrom]
    rfl
  | cons row rest ih =>
    intro i hr h
    rw [mdRowLinesFrom]
    rw [if_neg (h i (le_refl i) (by rw [List.length_cons]; omega))]
    rw [ih (i + 1) hr (fun j h1 h2 => h j (by omega)
      (by rw [List.length_cons]; omega))]
    rfl

/-- Helper: the markdown row loop on a grid split at the header row emits
the leading pipe lines, the header pipe line, the separator line right
after it, and the trailing pipe lines. -/
theorem mdRowLinesFrom_split :
    ∀ (g1 : List (List Str)) (hrow : List Str) (g2 : List (List Str)) (i : Int),
      mdRowLinesFrom i (i + g1.length) (g1 ++ hrow :: g2) =
        g1.map mkRowLine ++ [mkRowLine hrow, mkSepLine hrow] ++ g2.map mkRowLine := by
  intro g1
  induction g1 with
  | nil =>
    intro hrow g2 i
    rw [List.nil_append, mdRowLinesFrom]
    rw [if_pos (by rw [List.length_nil]; omega)]
    rw [mdRowLinesFrom_no_header g2 (i + 1) _ (fun j h1 h2 => by
      rw [List.length_nil] at *
      omega)]
    simp
  | cons row rest ih =>
    intro hrow g2 i
    rw [List.cons_append, mdRowLinesFrom]
    rw [if_neg (by rw [List.length_cons]; omega)]
    rw [show i + (((row :: rest).length : Nat) : Int) = (i + 1) + (rest.length : Int) from by
      rw [List.length_cons]
      omega]
    rw [ih hrow g2 (i + 1)]
    simp

/-- Helper: splitting the body of a pipe row (after the opening pipe) on
the pipe character yields each cell text framed by single spaces, plus
the empty fragment after the closing pipe. -/
theorem split_inner :
    ∀ (rest : List Str) (x : Str), '|' ∉ x → (∀ s ∈ rest, '|' ∉ s) →
      splitOnChar '|' (' ' :: (List.intercalate (" | ".toList) (x :: rest) ++ [' ', '|'])) =
        ((x :: rest).map (fun s => ' ' :: (s ++ [' ']))) ++ [[]] := by
  intro rest
  induction rest with
  | nil =>
    intro x hx _
    rw [show List.intercalate (" | ".toList) [x] = x from by simp [List.intercalate]]
    have he : ' ' :: (x ++ [' ', '|']) = (' ' :: (x ++ [' '])) ++ '|' :: [] := by
      simp
    rw [he, splitOnChar_append_sep '|' _ _ ?hpre]
    case hpre =>
      intro hmem
      rcases List.mem_cons.mp hmem with h | h
      · exact absurd h (by decide)
      · rcases List.mem_append.mp h with h2 | h2
        · exact hx h2
        · rw [List.mem_singleton] at h2
          exact absurd h2 (by decide)
    rw [splitOnChar]
    rfl
  | cons y rest2 ih =>
    intro x hx hr
    rw [intercalate_cons2]
    have hsep : " | ".toList = [' ', '|', ' '] := rfl
    have he : ' ' :: ((x ++ " | ".toList ++ List.intercalate (" | ".toList) (y :: rest2)) ++
        [' ', '|']) =
        (' ' :: (x ++ [' '])) ++ '|' ::
          (' ' :: (List.intercalate (" | ".toList) (y :: rest2) ++ [' ', '|'])) := by
      rw [hsep]
      simp
    rw [he, splitOnChar_append_sep '|' _ _ ?hpre2]
    case hpre2 =>
      intro hmem
      rcases List.mem_cons.mp hmem with h | h
      · exact absurd h (by decide)
      · rcases List.mem_append.mp h with h2 | h2
        · exact hx h2
        · rw [List.mem_singleton] at h2
          exact absurd h2 (by decide)
    rw [ih y (hr y (List.mem_cons_self _ _)) (fun s hs => hr s (List.mem_cons_of_mem _ hs))]
    rfl

/-- Helper: splitting a whole pipe row on the pipe character: an empty
fragment, the framed cell texts, and an empty fragment. -/
theorem splitOnChar_mkRowLine (row : List Str) (hne : row ≠ [])
    (hfree : ∀ s ∈ row, '|' ∉ s) :
    splitOnChar '|' (mkRowLine row) =
      ([] : Str) :: (row.map (fun s => ' ' :: (s ++ [' '])) ++ [[]]) := by
  match row, hne with
  | x :: rest, _ =>
    rw [mkRowLine]
    have h1 : "| ".toList ++ List.intercalate (" | ".toList) (x :: rest) ++ " |".toList =
        '|' :: (' ' :: (List.intercalate (" | ".toList) (x :: rest) ++ [' ', '|'])) := by
      rw [show "| ".toList = ['|', ' '] from rfl, show " |".toList = [' ', '|'] from rfl]
      simp
    rw [h1, splitOnChar, if_pos rfl]
    rw [split_inner rest x (hfree x (List.mem_cons_self _ _))
      (fun s hs => hfree s (List.mem_cons_of_mem _ hs))]

/-- Helper: parsing a pipe row built from pipe-free cell texts recovers
the texts. -/
theorem parseRow_mkRowLine (row : List Str) (hne : row ≠ [])
    (hfree : ∀ s ∈ row, '|' ∉ s) : parseRow (mkRowLine row) = row := by
  rw [parseRow, splitOnChar_mkRowLine row hne hfree]
  show ((row.map (fun s => ' ' :: (s ++ [' '])) ++ [[]]).dropLast).map
    (fun p : Str => (p.drop 1).dropLast) = row
  rw [List.dropLast_concat]
  rw [List.map_map]
  have hid : ((fun p : Str => (p.drop 1).dropLast) ∘ (fun s : Str => ' ' :: (s ++ [' ']))) =
      fun s : Str => s := by
    funext s
    show ((' ' :: (s ++ [' '])).drop 1).dropLast = s
    exact List.dropLast_concat
  rw [hid]
  exact List.map_id' row

/-- Helper: a pipe row over newline-free texts contains no newline. -/
theorem newline_not_mem_mkRowLine (row : List Str) (h : ∀ s ∈ row, '\n' ∉ s) :
    '\n' ∉ mkRowLine row := by
  rw [mkRowLine]
  intro hmem
  rcases List.mem_append.mp hmem with h1 | h1
  · rcases List.mem_append.mp h1 with h2 | h2
    · exact absurd h2 (by decide)
    · rcases mem_intercalate_cases _ _ _ h2 with h3 | ⟨x, hx, h3⟩
      · exact absurd h3 (by decide)
      · exact h x hx h3
  · exact absurd h1 (by decide)

/-- Helper: a separator line contains no newline. -/
theorem newline_not_mem_mkSepLine (row : List Str) : '\n' ∉ mkSepLine row := by
  rw [mkSepLine]
  intro hmem
  rcases List.mem_append.mp hmem with h1 | h1
  · rcases List.mem_append.mp h1 with h2 | h2
    · exact absurd h2 (by decide)
    · rcases mem_intercalate_cases _ _ _ h2 with h3 | ⟨x, hx, h3⟩
      · exact absurd h3 (by decide)
      · obtain ⟨y, hy, hyx⟩ := List.mem_map.mp hx
        rw [← hyx] at h3
        exact absurd h3 (by decide)
  · exact absurd h1 (by decide)

/-- Helper: splitting the markdown of a captioned table on newlines: the
caption line, a blank line, then the row lines. -/
theorem split_caption (pre : Str) (L : List Str) (hpre : '\n' ∉ pre) (hL : L ≠ [])
    (hfree : ∀ x ∈ L, '\n' ∉ x) :
    splitOnChar '\n' (List.intercalate ['\n'] ((pre ++ ['\n']) :: L)) =
      pre :: ([] : Str) :: L := by
  cases L with
  | nil => exact absurd rfl hL
  | cons l0 L2 =>
    rw [intercalate_cons2]
    have he : (pre ++ ['\n']) ++ ['\n'] ++ List.intercalate ['\n'] (l0 :: L2) =
        pre ++ '\n' :: ('\n' :: List.intercalate ['\n'] (l0 :: L2)) := by
      simp
    rw [he, splitOnChar_append_sep '\n' pre _ hpre]
    rw [show splitOnChar '\n' ('\n' :: List.intercalate ['\n'] (l0 :: L2)) =
        ([] : Str) :: splitOnChar '\n' (List.intercalate ['\n'] (l0 :: L2)) from by
      rw [splitOnChar, if_pos rfl]]
    rw [splitOnChar_intercalate '\n' _ (List.cons_ne_nil _ _) hfree]

/-- Helper: the header row picked by `to_markdown` lies within the grid's
row range whenever the cells do. -/
theorem headerRowOf_bounds (t : Table) (hr : 0 < t.num_rows)
    (hbnd : ∀ cl ∈ t.cells, 0 ≤ cl.row ∧ cl.row < t.num_rows ∧
      0 ≤ cl.col ∧ cl.col < t.num_cols) :
    0 ≤ headerRowOf t ∧ headerRowOf t < t.num_rows := by
  rw [headerRowOf]
  cases hf : t.cells.find? (fun c => c.is_header) with
  | none =>
    simp only [Option.map_none', Option.getD_none]
    omega
  | some c =>
    have hm := List.mem_of_find?_eq_some hf
    have hb := hbnd c hm
    simp only [Option.map_some', Option.getD_some]
    omega

/-- C7: on a table whose cells exactly tile its grid with no spans,
`to_dict_format` succeeds with a `num_rows × num_cols` grid reproducing
each cell's text at `[row][col]`, and `to_markdown` succeeds with a pipe
table: split on newlines it is the caption block followed by one pipe
line per grid row with exactly one separator line immediately after the
header row (the first row flagged `is_header`, else row 0), and each pipe
line parses back to its row's cell texts. -/
theorem markdown_round_trip (t : Table)
    (hrpos : 0 < t.num_rows) (hcpos : 0 < t.num_cols)
    (hspan : ∀ cl ∈ t.cells, cl.rowspan = 1 ∧ cl.colspan = 1)
    (hbnd : ∀ cl ∈ t.cells, 0 ≤ cl.row ∧ cl.row < t.num_rows ∧
      0 ≤ cl.col ∧ cl.col < t.num_cols)
    (htile : ∀ i ∈ pyRange 0 t.num_rows, ∀ j ∈ pyRange 0 t.num_cols,
      t.cells.countP (fun cl => cl.row == i && cl.col == j) = 1)
    (hchar : ∀ cl ∈ t.cells, '|' ∉ cl.text ∧ '\n' ∉ cl.text)
    (hcap : '\n' ∉ t.caption.getD []) :
    ∃ g g1 hrow g2 md,
      toDictFormat t = .ok g ∧
      g.length = t.num_rows.toNat ∧
      (∀ row ∈ g, row.length = t.num_cols.toNat) ∧
      (∀ cl ∈ t.cells, gridEntry g cl.row.toNat cl.col.toNat = some cl.text) ∧
      g = g1 ++ hrow :: g2 ∧
      (g1.length : Int) = headerRowOf t ∧
      toMarkdown t = .ok md ∧
      splitOnChar '\n' md = captionSplitLines t ++
        (g1.map mkRowLine ++ [mkRowLine hrow, mkSepLine hrow] ++ g2.map mkRowLine) ∧
      (∀ row ∈ g, parseRow (mkRowLine row) = row) := by
  have hd0 : ∀ row ∈ List.replicate t.num_rows.toNat
      (List.replicate t.num_cols.toNat ([] : Str)), row.length = t.num_cols.toNat := by
    intro row hrow
    rw [(List.mem_replicate.mp hrow).2, List.length_replicate]
  have hb0 : ∀ cl ∈ t.cells, 0 ≤ cl.row ∧
      cl.row < ((List.replicate t.num_rows.toNat
        (List.replicate t.num_cols.toNat ([] : Str))).length : Int) ∧
      0 ≤ cl.col ∧ cl.col < (t.num_cols.toNat : Int) := by
    intro cl hcl
    have hb := hbnd cl hcl
    rw [List.length_replicate]
    exact ⟨hb.1, by omega, hb.2.2.1, by omega⟩
  obtain ⟨g, hfill, hglen0, hgrows, hent⟩ := fillGrid_ok t.num_cols.toNat t.cells _ hd0 hb0
  have hglen : g.length = t.num_rows.toNat := by
    rw [hglen0, List.length_replicate]
  have hcells : ∀ cl ∈ t.cells, gridEntry g cl.row.toNat cl.col.toNat = some cl.text := by
    intro cl hcl
    obtain ⟨h0r, h1r, h0c, h1c⟩ := hbnd cl hcl
    rw [hent cl.row.toNat cl.col.toNat]
    rw [show ((cl.row.toNat : Nat) : Int) = cl.row from by omega,
      show ((cl.col.toNat : Nat) : Int) = cl.col from by omega]
    cases hf : t.cells.reverse.find? (fun cl' => cl'.row == cl.row && cl'.col == cl.col) with
    | none =>
      rw [List.find?_eq_none] at hf
      exact absurd (by simp : (cl.row == cl.row && cl.col == cl.col) = true)
        (hf cl (List.mem_reverse.mpr hcl))
    | some cl2 =>
      simp only []
      have hp2 := List.find?_some hf
      have hm2 : cl2 ∈ t.cells := List.mem_reverse.mp (List.mem_of_find?_eq_some hf)
      simp only [Bool.and_eq_true, beq_iff_eq] at hp2
      by_cases heq : cl2 = cl
      · rw [heq]
      · exfalso
        have hcnt := htile cl.row ((mem_pyRange 0 t.num_rows cl.row).mpr ⟨h0r, h1r⟩)
          cl.col ((mem_pyRange 0 t.num_cols cl.col).mpr ⟨h0c, h1c⟩)
        have h2le : 2 ≤ (t.cells.filter
            (fun cl' => cl'.row == cl.row && cl'.col == cl.col)).length := by
          refine two_mem_length _ cl2 cl ?_ ?_ heq
          · exact List.mem_filter.mpr ⟨hm2, by simp [hp2.1, hp2.2]⟩
          · exact List.mem_filter.mpr ⟨hcl, by simp⟩
        rw [List.countP_eq_length_filter] at hcnt
        omega
  have hallcell : ∀ row ∈ g, ∀ s ∈ row, ∃ cl ∈ t.cells, s = cl.text := by
    intro row hrow s hs
    obtain ⟨r, hrlt, hrget⟩ := List.mem_iff_getElem.mp hrow
    obtain ⟨c, hclt, hcget⟩ := List.mem_iff_getElem.mp hs
    have hge : gridEntry g r c = some s := by
      rw [gridEntry, List.getElem?_eq_getElem hrlt, hrget, Option.some_bind,
        List.getElem?_eq_getElem hclt, hcget]
    have hrR : (r : Int) < t.num_rows := by
      rw [hglen] at hrlt
      omega
    have hcC : (c : Int) < t.num_cols := by
      have h := hgrows row hrow
      rw [h] at hclt
      omega
    rw [hent r c] at hge
    cases hf : t.cells.reverse.find?
        (fun cl' => cl'.row == (r : Int) && cl'.col == (c : Int)) with
    | none =>
      rw [List.find?_eq_none] at hf
      have hcnt := htile (r : Int) ((mem_pyRange 0 t.num_rows (r : Int)).mpr ⟨by omega, hrR⟩)
        (c : Int) ((mem_pyRange 0 t.num_cols (c : Int)).mpr ⟨by omega, hcC⟩)
      have hpos : 0 < t.cells.countP
          (fun cl => cl.row == (r : Int) && cl.col == (c : Int)) := by omega
      obtain ⟨cl, hclm, hclp⟩ := List.countP_pos_iff.mp hpos
      exact absurd hclp (hf cl (List.mem_reverse.mpr hclm))
    | some cl2 =>
      rw [hf] at hge
      simp only [] at hge
      have hst : s = cl2.text := by
        injection hge with h
        exact h.symm
      exact ⟨cl2, List.mem_reverse.mp (List.mem_of_find?_eq_some hf), hst⟩
  have hfree : ∀ row ∈ g, (∀ s ∈ row, '|' ∉ s) ∧ (∀ s ∈ row, '\n' ∉ s) := by
    intro row hrow
    constructor
    · intro s hs
      obtain ⟨cl, hcl, hst⟩ := hallcell row hrow s hs
      rw [hst]
      exact (hchar cl hcl).1
    · intro s hs
      obtain ⟨cl, hcl, hst⟩ := hallcell row hrow s hs
      rw [hst]
      exact (hchar cl hcl).2
  have hrowne : ∀ row ∈ g, row ≠ [] := by
    intro row hrow h
    have hl := hgrows row hrow
    rw [h, List.length_nil] at hl
    omega
  obtain ⟨hhr0, hhr1⟩ := headerRowOf_bounds t hrpos hbnd
  have hk : (headerRowOf t).toNat < g.length := by
    rw [hglen]
    omega
  have hdec0 := (List.take_append_drop (headerRowOf t).toNat g).symm
  rw [List.drop_eq_getElem_cons hk] at hdec0
  have hg1len0 : ((g.take (headerRowOf t).toNat).length : Int) = headerRowOf t := by
    rw [List.length_take, min_eq_left (by omega : (headerRowOf t).toNat ≤ g.length)]
    omega
  obtain ⟨g1, hrow, g2, hdec2, hg1len2⟩ :
      ∃ g1 hrow g2, g = g1 ++ hrow :: g2 ∧ ((g1.length : Nat) : Int) = headerRowOf t :=
    ⟨g.take (headerRowOf t).toNat, g.get ⟨(headerRowOf t).toNat, hk⟩,
      g.drop ((headerRowOf t).toNat + 1), hdec0, hg1len0⟩
  have hmdl : mdRowLines g (headerRowOf t) =
      g1.map mkRowLine ++ [mkRowLine hrow, mkSepLine hrow] ++ g2.map mkRowLine := by
    rw [mdRowLines, hdec2]
    rw [show headerRowOf t = 0 + ((g1.length : Nat) : Int) from by omega]
    exact mdRowLinesFrom_split g1 hrow g2 0
  have hcellsne : t.cells ≠ [] := by
    intro h
    have hcnt := htile 0 ((mem_pyRange 0 t.num_rows 0).mpr ⟨le_refl 0, by omega⟩)
      0 ((mem_pyRange 0 t.num_cols 0).mpr ⟨le_refl 0, by omega⟩)
    rw [h] at hcnt
    simp at hcnt
  have hempf : t.cells.isEmpty = false := by
    cases h : t.cells with
    | nil => exact absurd h hcellsne
    | cons a l => rfl
  have htd : toDictFormat t = .ok g := by
    rw [toDictFormat]
    exact hfill
  have hmk : toMarkdown t = .ok (List.intercalate ['\n']
      (captionLines t ++ mdRowLines g (headerRowOf t))) := by
    rw [toMarkdown, if_neg (by rw [hempf]; exact Bool.false_ne_true)]
    rw [htd]
  have hLfree : ∀ x ∈ g1.map mkRowLine ++ [mkRowLine hrow, mkSepLine hrow] ++
      g2.map mkRowLine, '\n' ∉ x := by
    intro x hx
    rcases List.mem_append.mp hx with h1 | h1
    · rcases List.mem_append.mp h1 with h2 | h2
      · obtain ⟨row, hrw, hxeq⟩ := List.mem_map.mp h2
        rw [← hxeq]
        refine newline_not_mem_mkRowLine row ((hfree row ?_).2)
        rw [hdec2]
        exact List.mem_append_left _ hrw
      · rcases List.mem_cons.mp h2 with h3 | h3
        · rw [h3]
          refine newline_not_mem_mkRowLine hrow ((hfree hrow ?_).2)
          rw [hdec2]
          exact List.mem_append_right _ (List.mem_cons_self _ _)
        · rw [List.mem_singleton] at h3
          rw [h3]
          exact newline_not_mem_mkSepLine hrow
    · obtain ⟨row, hrw, hxeq⟩ := List.mem_map.mp h1
      rw [← hxeq]
      refine newline_not_mem_mkRowLine row ((hfree row ?_).2)
      rw [hdec2]
      exact List.mem_append_right _ (List.mem_cons_of_mem _ hrw)
  have hLne : g1.map mkRowLine ++ [mkRowLine hrow, mkSepLine hrow] ++
      g2.map mkRowLine ≠ [] := by
    intro h
    rcases List.append_eq_nil.mp h with ⟨h1, h2⟩
    rcases List.append_eq_nil.mp h1 with ⟨h3, h4⟩
    exact absurd h4 (List.cons_ne_nil _ _)
  have hsplit : splitOnChar '\n' (List.intercalate ['\n']
      (captionLines t ++ mdRowLines g (headerRowOf t))) =
      captionSplitLines t ++ (g1.map mkRowLine ++ [mkRowLine hrow, mkSepLine hrow] ++
        g2.map mkRowLine) := by
    rw [hmdl]
    rw [captionLines, captionSplitLines]
    cases hc : t.caption with
    | none =>
      simp only []
      exact splitOnChar_intercalate '\n' _ hLne hLfree
    | some cap =>
      simp only []
      by_cases hce : cap.isEmpty = true
      · rw [if_pos hce, if_pos hce]
        exact splitOnChar_intercalate '\n' _ hLne hLfree
      · rw [if_neg hce, if_neg hce]
        have hpre : '\n' ∉ "**".toList ++ cap ++ "**".toList := by
          intro hm
          rcases List.mem_append.mp hm with h1 | h1
          · rcases List.mem_append.mp h1 with h2 | h2
            · exact absurd h2 (by decide)
            · rw [hc] at hcap
              exact hcap h2
          · exact absurd h1 (by decide)
        rw [List.singleton_append]
        rw [split_caption _ _ hpre hLne hLfree]
        rfl
  refine ⟨g, g1, hrow, g2, List.intercalate ['\n']
    (captionLines t ++ mdRowLines g (headerRowOf t)),
    htd, hglen, hgrows, hcells, hdec2, hg1len2, hmk, hsplit, ?_⟩
  intro row hrw
  exact parseRow_mkRowLine row (hrowne row hrw) ((hfree row hrw).1)

/-- The round trip at the 2-by-2 captioned table with a flagged header
row. -/
theorem markdown_round_trip_witness :
    ∃ g g1 hrow g2 md,
      toDictFormat c7Table = .ok g ∧
      g.length = c7Table.num_rows.toNat ∧
      (∀ row ∈ g, row.length = c7Table.num_cols.toNat) ∧
      (∀ cl ∈ c7Table.cells, gridEntry g cl.row.toNat cl.col.toNat = some cl.text) ∧
      g = g1 ++ hrow :: g2 ∧
      (g1.length : Int) = headerRowOf c7Table ∧
      toMarkdown c7Table = .ok md ∧
      splitOnChar '\n' md = captionSplitLines c7Table ++
        (g1.map mkRowLine ++ [mkRowLine hrow, mkSepLine hrow] ++ g2.map mkRowLine) ∧
      (∀ row ∈ g, parseRow (mkRowLine row) = row) :=
  markdown_round_trip c7Table (by decide) (by decide) (by decide) (by decide)
    (by decide) (by decide) (by decide)
